import Mathlib

set_option linter.dupNamespace false

/-!
Verification of a discrete-event WiFi MAC simulation (three variants:
sub-channel / OFDMA round-robin, multi-stream MU-MIMO, and single-channel
contention).  Simulated time, latencies and data rates are embedded as exact
rationals; the randomized inputs of the multi-stream and contention variants
(distances, backoff draws, channel-probe draws) are passed in as explicit
streams, so every run is a pure function of its configuration and streams.
-/

deriving instance DecidableEq for Except

theorem mem_of_idx {α : Type} : ∀ (l : List α) (i : ℕ) (a : α), l[i]? = some a → a ∈ l
  | x :: _, 0, a, h => by simp at h; exact h ▸ List.mem_cons_self _ _
  | _ :: t, i + 1, a, h => by
      simp only [List.getElem?_cons_succ] at h
      exact List.mem_cons_of_mem _ (mem_of_idx t i a h)

namespace SubChannel

/-! ### Sub-channel (OFDMA) variant: constants and data model -/

def PACKET_SIZE_BYTES : ℕ := 1024
def MODULATION_BITS : ℚ := 8
def CODING_RATE : ℚ := 5 / 6
def MAX_SIMULATION_TIME : ℚ := 5000
def MAX_QUEUE_SIZE : ℕ := 50
def TIMEOUT_LIMIT : ℚ := 1
def SUB_CHANNELS : List ℚ := [2, 4, 10]

def calculateDataRate (bandwidth : ℚ) : ℚ :=
  bandwidth * 1000000 * MODULATION_BITS * CODING_RATE

structure Packet where
  id : ℕ
  arrivalTime : ℚ
  transmissionStartTime : ℚ
  transmissionEndTime : ℚ
deriving Repr, DecidableEq

structure SubChannel where
  bandwidth : ℚ
  busy : Bool
deriving Repr, DecidableEq

structure User where
  id : ℕ
  packetQueue : List Packet
  droppedPackets : ℕ
deriving Repr, DecidableEq

/-- The generation loop body: packet `i` is dropped when the queue is full,
otherwise enqueued with arrival time `base + i * 0.01`. -/
def generateFrom (base : ℚ) : User → ℕ → ℕ → User
  | u, _, 0 => u
  | u, i, n + 1 =>
    let u' :=
      if MAX_QUEUE_SIZE ≤ u.packetQueue.length then
        { u with droppedPackets := u.droppedPackets + 1 }
      else
        { u with packetQueue := u.packetQueue ++ [⟨i, base + i / 100, 0, 0⟩] }
    generateFrom base u' (i + 1) n

def generatePackets (u : User) (numPackets : ℕ) (currentTime : ℚ) : User :=
  generateFrom currentTime u 0 numPackets

/-- Ghost record of a transmitted packet's stamps, kept for verification. -/
structure TxRecord where
  arrival : ℚ
  startT : ℚ
  endT : ℚ
deriving Repr, DecidableEq

structure SimState where
  users : List User
  subChannels : List SubChannel
  currentTime : ℚ
  totalTime : ℚ
  totalPackets : ℕ
  totalLatency : ℚ
  maxLatency : ℚ
  totalDroppedPackets : ℕ
  currentRoundRobinUser : ℕ
  history : List TxRecord
deriving Repr, DecidableEq

/-- One iteration of the inner `for (auto& subChannel : subChannels)` loop,
operating on sub-channel index `ci` together with the running
`allQueuesEmpty` flag. -/
def subChannelStep (s : SimState) (ci : ℕ) (allQE : Bool) : SimState × Bool :=
  match s.subChannels[ci]? with
  | none => (s, allQE)
  | some ch =>
    if ch.busy then (s, allQE)
    else
      match s.users[s.currentRoundRobinUser]? with
      | none => (s, allQE)
      | some user =>
        match user.packetQueue with
        | [] =>
          ({ s with currentRoundRobinUser :=
              (s.currentRoundRobinUser + 1) % s.users.length }, allQE)
        | pkt :: rest =>
          -- wait until the packet arrives
          let t1 := if s.currentTime < pkt.arrivalTime then pkt.arrivalTime else s.currentTime
          if TIMEOUT_LIMIT < t1 - pkt.arrivalTime then
            -- drop the packet: it has timed out
            ({ s with
                users := s.users.set s.currentRoundRobinUser
                  { user with packetQueue := rest, droppedPackets := user.droppedPackets + 1 },
                currentTime := t1,
                totalDroppedPackets := s.totalDroppedPackets + 1 }, false)
          else
            -- transmit the packet on this sub-channel
            let chans1 := s.subChannels.set ci { ch with busy := true }
            let dataRate := calculateDataRate ch.bandwidth
            let transmissionTime := (PACKET_SIZE_BYTES * 8 : ℚ) / dataRate
            let startT := t1
            let endT := t1 + transmissionTime
            let latency := endT - pkt.arrivalTime
            let chans2 := chans1.set ci { ch with busy := false }
            ({ s with
                users := s.users.set s.currentRoundRobinUser { user with packetQueue := rest },
                subChannels := chans2,
                currentTime := endT,
                totalPackets := s.totalPackets + 1,
                totalLatency := s.totalLatency + latency,
                maxLatency := max s.maxLatency latency,
                currentRoundRobinUser := (s.currentRoundRobinUser + 1) % s.users.length,
                history := s.history ++ [⟨pkt.arrivalTime, startT, endT⟩] }, false)

/-- One pass of the `while (true)` body: the fold of `subChannelStep` over all
sub-channels, starting with `allQueuesEmpty = true`. -/
def runPassAux (s : SimState) (allQE : Bool) : List ℕ → SimState × Bool
  | [] => (s, allQE)
  | ci :: rest =>
    let (s', q') := subChannelStep s ci allQE
    runPassAux s' q' rest

def runPass (s : SimState) : SimState × Bool :=
  runPassAux s true (List.range s.subChannels.length)

/-- The `while (true)` loop, with explicit fuel (number of passes); the fuel
is shown sufficient below. -/
def runLoop : ℕ → SimState → Option SimState
  | 0, _ => none
  | fuel + 1, s =>
    let (s', allQE) := runPass s
    if allQE = true ∨ MAX_SIMULATION_TIME ≤ s'.currentTime then some s'
    else runLoop fuel s'

def initUsers (numUsers : ℕ) : List User :=
  (List.range numUsers).map fun i => ⟨i, [], 0⟩

def initState (numUsers : ℕ) : SimState :=
  { users := initUsers numUsers
    subChannels := SUB_CHANNELS.map fun bw => ⟨bw, false⟩
    currentTime := 0
    totalTime := 0
    totalPackets := 0
    totalLatency := 0
    maxLatency := 0
    totalDroppedPackets := 0
    currentRoundRobinUser := 0
    history := [] }

def sumQueues : List User → ℕ
  | [] => 0
  | u :: rest => u.packetQueue.length + sumQueues rest

def totalQueueLength (s : SimState) : ℕ :=
  sumQueues s.users

/-- `true` when every user's queue is empty. -/
def allQueuesEmptyState (s : SimState) : Bool :=
  s.users.all fun u => u.packetQueue.isEmpty

/-- The exit condition the specification demands at loop exit: every queue
empty, or the clock at/over the ceiling. -/
def exitedExactly (s : SimState) : Bool :=
  allQueuesEmptyState s || decide (MAX_SIMULATION_TIME ≤ s.currentTime)

/-- The state right after traffic generation, before the loop starts. -/
def genState (numUsers packetsPerUser : ℕ) : SimState :=
  let s0 := initState numUsers
  { s0 with users := s0.users.map fun u => generatePackets u packetsPerUser 0 }

def runSimulation (numUsers packetsPerUser : ℕ) : Option SimState :=
  (runLoop (totalQueueLength (genState numUsers packetsPerUser) + 1)
      (genState numUsers packetsPerUser)).map
    fun s => { s with totalTime := s.currentTime }

structure Report where
  throughputMbps : ℚ
  avgLatencyMs : ℚ
  maxLatencyMs : ℚ
  droppedPackets : ℕ
deriving Repr, DecidableEq

def displayResults (s : SimState) (numUsers : ℕ) : Option Report :=
  if s.totalPackets = 0 then none
  else
    let throughput := (s.totalPackets * PACKET_SIZE_BYTES * 8 : ℚ) / s.totalTime
    let avgLatency := if 0 < s.totalPackets then s.totalLatency / s.totalPackets else 0
    some
      { throughputMbps := throughput / 1000000 / numUsers + 1
        avgLatencyMs := avgLatency * 1000
        maxLatencyMs := (if numUsers = 1 then avgLatency else s.maxLatency) * 1000
        droppedPackets := s.totalDroppedPackets }

/-! ### Sub-channel variant: lemmas -/

theorem sumQueues_set : ∀ (l : List User) (i : ℕ) (u u' : User), l[i]? = some u →
    sumQueues (l.set i u') + u.packetQueue.length
      = sumQueues l + u'.packetQueue.length
  | x :: t, 0, u, u', h => by
      simp only [List.getElem?_cons_zero, Option.some.injEq] at h
      subst h
      simp [sumQueues, List.set]
      omega
  | x :: t, i + 1, u, u', h => by
      simp only [List.getElem?_cons_succ] at h
      have := sumQueues_set t i u u' h
      simp [sumQueues, List.set]
      omega

/-- One sub-channel iteration never grows the total amount of queued packets,
and whenever it turns the `allQueuesEmpty` flag from `true` to `false` it
removes exactly one packet from some queue. -/
theorem subChannelStep_measure (s : SimState) (ci : ℕ) (q : Bool) :
    totalQueueLength (subChannelStep s ci q).1 ≤ totalQueueLength s ∧
    ((subChannelStep s ci q).2 = false → q = false ∨
      totalQueueLength (subChannelStep s ci q).1 < totalQueueLength s) := by
  unfold subChannelStep
  split
  · exact ⟨le_refl _, fun h => Or.inl h⟩
  next ch _ =>
    split
    · exact ⟨le_refl _, fun h => Or.inl h⟩
    split
    · exact ⟨le_refl _, fun h => Or.inl h⟩
    next user hu =>
      split
      · exact ⟨le_refl _, fun h => Or.inl h⟩
      next pkt rest hq =>
        have hd := sumQueues_set s.users s.currentRoundRobinUser user
          { user with packetQueue := rest, droppedPackets := user.droppedPackets + 1 } hu
        have ht := sumQueues_set s.users s.currentRoundRobinUser user
          { user with packetQueue := rest } hu
        rw [hq] at hd ht
        simp only [List.length_cons] at hd ht
        constructor
        · simp only [totalQueueLength]
          split <;> (split <;> (dsimp only [] ; omega))
        · intro _
          right
          simp only [totalQueueLength]
          split <;> (split <;> (dsimp only [] ; omega))

theorem runPassAux_measure : ∀ (cis : List ℕ) (s : SimState) (q : Bool),
    totalQueueLength (runPassAux s q cis).1 ≤ totalQueueLength s ∧
    ((runPassAux s q cis).2 = false → q = false ∨
      totalQueueLength (runPassAux s q cis).1 < totalQueueLength s)
  | [], s, q => ⟨le_refl _, fun h => Or.inl h⟩
  | ci :: rest, s, q => by
      have hstep := subChannelStep_measure s ci q
      have hrest := runPassAux_measure rest (subChannelStep s ci q).1 (subChannelStep s ci q).2
      simp only [runPassAux]
      constructor
      · exact le_trans hrest.1 hstep.1
      · intro hf
        rcases hrest.2 hf with h | h
        · rcases hstep.2 h with h' | h'
          · exact Or.inl h'
          · exact Or.inr (lt_of_le_of_lt hrest.1 h')
        · exact Or.inr (lt_of_lt_of_le h hstep.1)

theorem runPass_measure (s : SimState) :
    totalQueueLength (runPass s).1 ≤ totalQueueLength s ∧
    ((runPass s).2 = false → totalQueueLength (runPass s).1 < totalQueueLength s) := by
  have h := runPassAux_measure (List.range s.subChannels.length) s true
  exact ⟨h.1, fun hf => (h.2 hf).elim (fun h' => by simp at h') id⟩

/-- Fuel sufficiency: one pass more than the number of queued packets always
reaches the loop's own exit. -/
theorem runLoop_total : ∀ (fuel : ℕ) (s : SimState), totalQueueLength s < fuel →
    ∃ r, runLoop fuel s = some r
  | 0, s, h => absurd h (Nat.not_lt_zero _)
  | fuel + 1, s, h => by
      simp only [runLoop]
      split
      · exact ⟨_, rfl⟩
      next hbreak =>
        push_neg at hbreak
        have hm := runPass_measure s
        have : totalQueueLength (runPass s).1 < fuel :=
          lt_of_lt_of_le (hm.2 (by simpa using hbreak.1)) (Nat.lt_succ_iff.mp h)
        exact runLoop_total fuel (runPass s).1 this

/-- More fuel does not change the result once the loop exits on its own. -/
theorem runLoop_mono : ∀ (fuel fuel' : ℕ) (s : SimState) (r : SimState),
    runLoop fuel s = some r → fuel ≤ fuel' → runLoop fuel' s = some r
  | 0, _, s, r, h, _ => by simp [runLoop] at h
  | fuel + 1, 0, s, r, _, hle => absurd hle (by omega)
  | fuel + 1, fuel' + 1, s, r, h, hle => by
      simp only [runLoop] at h ⊢
      split at h
      next hc => rw [if_pos hc]; exact h
      next hc => rw [if_neg hc]; exact runLoop_mono fuel fuel' _ r h (by omega)

/-- A state with all queues empty is left intact (queues, flag, clock) by a
sub-channel iteration; only the round-robin pointer may move. -/
theorem subChannelStep_allEmpty (s : SimState) (ci : ℕ) (q : Bool)
    (h : allQueuesEmptyState s = true) :
    (subChannelStep s ci q).1.users = s.users ∧
    (subChannelStep s ci q).1.subChannels = s.subChannels ∧
    (subChannelStep s ci q).1.currentTime = s.currentTime ∧
    (subChannelStep s ci q).2 = q := by
  unfold subChannelStep
  split
  · exact ⟨rfl, rfl, rfl, rfl⟩
  next ch _ =>
    split
    · exact ⟨rfl, rfl, rfl, rfl⟩
    split
    · exact ⟨rfl, rfl, rfl, rfl⟩
    next user hu =>
      have hmem := mem_of_idx s.users s.currentRoundRobinUser user hu
      have hempty : user.packetQueue = [] := by
        simp only [allQueuesEmptyState, List.all_eq_true] at h
        simpa using h user hmem
      split
      · exact ⟨rfl, rfl, rfl, rfl⟩
      next pkt rest hq => rw [hempty] at hq; cases hq

theorem runPassAux_allEmpty : ∀ (cis : List ℕ) (s : SimState) (q : Bool),
    allQueuesEmptyState s = true →
    (runPassAux s q cis).1.users = s.users ∧
    (runPassAux s q cis).1.currentTime = s.currentTime ∧
    (runPassAux s q cis).2 = q
  | [], s, q, _ => ⟨rfl, rfl, rfl⟩
  | ci :: rest, s, q, h => by
      have hstep := subChannelStep_allEmpty s ci q h
      have h' : allQueuesEmptyState (subChannelStep s ci q).1 = true := by
        simp only [allQueuesEmptyState] at h ⊢
        rw [hstep.1]; exact h
      have hrest := runPassAux_allEmpty rest (subChannelStep s ci q).1 (subChannelStep s ci q).2 h'
      simp only [runPassAux]
      exact ⟨hrest.1.trans hstep.1, hrest.2.1.trans hstep.2.2.1, hrest.2.2.trans hstep.2.2.2⟩

/-- When every queue is empty, the very next pass exits the loop. -/
theorem runLoop_exits_when_empty (s : SimState) (fuel : ℕ)
    (h : allQueuesEmptyState s = true) :
    runLoop (fuel + 1) s = some (runPass s).1 := by
  have hp := runPassAux_allEmpty (List.range s.subChannels.length) s true h
  simp only [runLoop, runPass]
  rw [hp.2.2]
  simp

/-- The simulation loop always terminates: the fuel chosen in
`runSimulation` (one pass more than there are queued packets) suffices. -/
theorem runSimulation_isSome (numUsers packetsPerUser : ℕ) :
    (runSimulation numUsers packetsPerUser).isSome = true := by
  obtain ⟨r, hr⟩ := runLoop_total (totalQueueLength (genState numUsers packetsPerUser) + 1)
    (genState numUsers packetsPerUser) (Nat.lt_succ_self _)
  unfold runSimulation
  rw [hr]
  rfl

/-- The simulated clock never decreases across one sub-channel iteration
(the sub-channels of the running simulation all have positive bandwidth). -/
theorem subChannelStep_clock_mono (s : SimState) (ci : ℕ) (q : Bool)
    (hbw : ∀ ch ∈ s.subChannels, 0 < ch.bandwidth) :
    s.currentTime ≤ (subChannelStep s ci q).1.currentTime := by
  unfold subChannelStep
  split
  · exact le_refl _
  next ch hch =>
    have hpos : 0 < ch.bandwidth := hbw ch (mem_of_idx _ _ _ hch)
    have hrate : 0 < calculateDataRate ch.bandwidth := by
      unfold calculateDataRate MODULATION_BITS CODING_RATE
      positivity
    have htt : 0 < (PACKET_SIZE_BYTES * 8 : ℚ) / calculateDataRate ch.bandwidth := by
      unfold PACKET_SIZE_BYTES
      positivity
    split
    · exact le_refl _
    split
    · exact le_refl _
    split
    · exact le_refl _
    next pkt rest hq =>
      split
      next hwait =>
        dsimp only []
        split
        · exact le_of_lt hwait
        · dsimp only []
          linarith
      next hwait =>
        dsimp only []
        split
        · exact le_refl _
        · dsimp only []
          linarith

/-- Any record a sub-channel iteration appends to the transmit history has
`arrival ≤ start ≤ end`. -/
theorem subChannelStep_history (s : SimState) (ci : ℕ) (q : Bool)
    (hbw : ∀ ch ∈ s.subChannels, 0 < ch.bandwidth) :
    ∀ tr ∈ (subChannelStep s ci q).1.history,
      tr ∈ s.history ∨ (tr.arrival ≤ tr.startT ∧ tr.startT ≤ tr.endT) := by
  unfold subChannelStep
  split
  · exact fun tr h => Or.inl h
  next ch hch =>
    have hpos : 0 < ch.bandwidth := hbw ch (mem_of_idx _ _ _ hch)
    have htt : 0 < (PACKET_SIZE_BYTES * 8 : ℚ) / calculateDataRate ch.bandwidth := by
      have : 0 < calculateDataRate ch.bandwidth := by
        unfold calculateDataRate MODULATION_BITS CODING_RATE
        positivity
      unfold PACKET_SIZE_BYTES
      positivity
    split
    · exact fun tr h => Or.inl h
    split
    · exact fun tr h => Or.inl h
    split
    · exact fun tr h => Or.inl h
    next pkt rest hq =>
      split
      next hwait =>
        dsimp only []
        split
        · exact fun tr h => Or.inl h
        · intro tr h
          dsimp only [] at h
          rcases List.mem_append.mp h with h | h
          · exact Or.inl h
          · simp only [List.mem_singleton] at h
            subst h
            exact Or.inr ⟨le_refl _, by linarith⟩
      next hwait =>
        push_neg at hwait
        dsimp only []
        split
        · exact fun tr h => Or.inl h
        · intro tr h
          dsimp only [] at h
          rcases List.mem_append.mp h with h | h
          · exact Or.inl h
          · simp only [List.mem_singleton] at h
            subst h
            exact Or.inr ⟨hwait, by linarith⟩

/-- Characterization of packet generation: the queue fills up to the
configured maximum, and every further packet increments the drop counter. -/
theorem generateFrom_spec : ∀ (n : ℕ) (u : User) (i : ℕ) (base : ℚ),
    u.packetQueue.length ≤ MAX_QUEUE_SIZE →
    (generateFrom base u i n).packetQueue.length
        = min (u.packetQueue.length + n) MAX_QUEUE_SIZE ∧
    (generateFrom base u i n).droppedPackets
        = u.droppedPackets + (u.packetQueue.length + n - MAX_QUEUE_SIZE)
  | 0, u, i, base, hle => by
      simp only [generateFrom]
      constructor
      · omega
      · omega
  | n + 1, u, i, base, hle => by
      simp only [generateFrom]
      split
      next hfull =>
        have hu : u.packetQueue.length = MAX_QUEUE_SIZE := le_antisymm hle hfull
        have ih := generateFrom_spec n { u with droppedPackets := u.droppedPackets + 1 } (i + 1) base (by simpa using hle)
        simp only at ih
        rw [ih.1, ih.2]
        constructor
        · omega
        · omega
      next hfull =>
        push_neg at hfull
        have ih := generateFrom_spec n
          { u with packetQueue := u.packetQueue ++ [⟨i, base + i / 100, 0, 0⟩] } (i + 1) base
          (by simp; omega)
        simp only [List.length_append, List.length_singleton] at ih
        rw [ih.1, ih.2]
        constructor
        · omega
        · omega

theorem generatePackets_spec (u : User) (numPackets : ℕ) (currentTime : ℚ)
    (hle : u.packetQueue.length ≤ MAX_QUEUE_SIZE) :
    (generatePackets u numPackets currentTime).packetQueue.length
        = min (u.packetQueue.length + numPackets) MAX_QUEUE_SIZE ∧
    (generatePackets u numPackets currentTime).droppedPackets
        = u.droppedPackets + (u.packetQueue.length + numPackets - MAX_QUEUE_SIZE) :=
  generateFrom_spec numPackets u 0 currentTime hle

/-! ### Sub-channel variant: the balanced no-timeout regime

The inner loop advances the round-robin pointer on every iteration except a
timeout drop.  When the clock provably stays at or below `TIMEOUT_LIMIT`, no
drop can fire, so the cyclic profile of queue lengths read from the pointer
stays non-increasing and balanced; the pointer therefore always rests on a
longest queue, and a pass can leave the `allQueuesEmpty` flag `true` only
when every queue is empty.  This settles the loop's exit condition for every
configuration whose total transmission work fits under the timeout limit —
in particular for all three populations the program runs. -/

/-- The largest per-packet transmission time over the configured
sub-channels (attained on the 2 MHz one). -/
def ttmax : ℚ := (PACKET_SIZE_BYTES * 8 : ℚ) / calculateDataRate 2

/-- Upper bound on every generated arrival stamp (packet `i` arrives at
`i / 100`). -/
def maxArrival (p : ℕ) : ℚ := ((p - 1 : ℕ) : ℚ) / 100

/-- Clock budget of a whole run: the latest arrival plus one maximal
transmission per generated packet.  When this is at most `TIMEOUT_LIMIT`,
no packet can ever time out. -/
def noTimeoutBound (n p : ℕ) : ℚ := maxArrival p + ((n * p : ℕ) : ℚ) * ttmax

/-- The per-user queue lengths, in user order. -/
def qLengths (s : SimState) : List ℕ := s.users.map fun u => u.packetQueue.length

/-- A list read cyclically starting at position `i`. -/
def rotatedQ (l : List ℕ) (i : ℕ) : List ℕ := l.drop i ++ l.take i

/-- Balanced profile: non-increasing, and the first entry exceeds the last
by at most one. -/
def Bal (l : List ℕ) : Prop :=
  List.Chain' (fun a b => b ≤ a) l ∧ l.head?.getD 0 ≤ l.getLast?.getD 0 + 1

theorem ttmax_pos : 0 < ttmax := by
  unfold ttmax calculateDataRate MODULATION_BITS CODING_RATE PACKET_SIZE_BYTES
  norm_num

theorem rotatedQ_zero (l : List ℕ) : rotatedQ l 0 = l := by
  unfold rotatedQ
  simp

theorem rotatedQ_length (l : List ℕ) (i : ℕ) : (rotatedQ l i).length = l.length := by
  unfold rotatedQ
  simp only [List.length_append, List.length_drop, List.length_take]
  omega

theorem mem_rotatedQ {a : ℕ} {l : List ℕ} {i : ℕ} : a ∈ rotatedQ l i ↔ a ∈ l := by
  unfold rotatedQ
  constructor
  · intro h
    rcases List.mem_append.mp h with h | h
    · exact List.mem_of_mem_drop h
    · exact List.mem_of_mem_take h
  · intro h
    rcases List.mem_append.mp ((List.take_append_drop i l).symm ▸ h) with h | h
    · exact List.mem_append.mpr (Or.inr h)
    · exact List.mem_append.mpr (Or.inl h)

theorem rotatedQ_head (l : List ℕ) (i : ℕ) (h : i < l.length) :
    (rotatedQ l i).head? = l[i]? := by
  unfold rotatedQ
  rw [List.head?_append, List.head?_drop, List.getElem?_eq_getElem h]
  rfl

theorem tail_append_of_ne_nil {α : Type} (l₁ l₂ : List α) (h : l₁ ≠ []) :
    (l₁ ++ l₂).tail = l₁.tail ++ l₂ := by
  cases l₁ with
  | nil => exact absurd rfl h
  | cons a t => rfl

/-- Updating the pointed-at entry and advancing the pointer turns the cyclic
view into: drop the old head, append the new value at the back. -/
theorem rotatedQ_set_succ (l : List ℕ) (i x : ℕ) (h : i < l.length) :
    rotatedQ (l.set i x) ((i + 1) % l.length) = (rotatedQ l i).tail ++ [x] := by
  have hset : l.set i x = l.take i ++ x :: l.drop (i + 1) := by
    rw [List.set_eq_take_append_cons_drop, if_pos h]
  have hT : (l.take i).length = i := by
    rw [List.length_take]
    omega
  have hdropne : l.drop i ≠ [] := by
    apply List.ne_nil_of_length_pos
    rw [List.length_drop]
    omega
  have htail : (l.drop i ++ l.take i).tail = l.drop (i + 1) ++ l.take i := by
    rw [tail_append_of_ne_nil _ _ hdropne, List.tail_drop]
  rcases Nat.lt_or_ge (i + 1) l.length with hlt | hge
  · have hmod : (i + 1) % l.length = i + 1 := Nat.mod_eq_of_lt hlt
    have hTx : (l.take i ++ [x]).length = i + 1 := by
      simp [hT]
    have hsplit : l.take i ++ x :: l.drop (i + 1)
        = (l.take i ++ [x]) ++ l.drop (i + 1) := by
      simp
    unfold rotatedQ
    rw [hmod, hset, hsplit, List.drop_left' hTx, List.take_left' hTx, htail]
    simp
  · have hn : i + 1 = l.length := by omega
    have hmod : (i + 1) % l.length = 0 := by
      rw [hn, Nat.mod_self]
    have hD : l.drop (i + 1) = [] := List.drop_eq_nil_of_le (by omega)
    unfold rotatedQ
    rw [hmod, List.drop_zero, List.take_zero, List.append_nil, hset, hD, htail, hD]
    simp

theorem chain_ge_head_ge : ∀ (l : List ℕ) (a : ℕ),
    List.Chain' (fun x y => y ≤ x) (a :: l) → ∀ b ∈ l, b ≤ a
  | [], _, _, b, hb => absurd hb (List.not_mem_nil b)
  | c :: t, a, h, b, hb => by
      rw [List.chain'_cons] at h
      rcases List.mem_cons.mp hb with rfl | hb
      · exact h.1
      · exact le_trans (chain_ge_head_ge t c h.2 b hb) h.1

theorem chain_ge_of_const (c : ℕ) : ∀ l : List ℕ, (∀ x ∈ l, x = c) →
    List.Chain' (fun x y => y ≤ x) l
  | [], _ => List.chain'_nil
  | [a], _ => List.chain'_singleton a
  | a :: b :: t, h => by
      rw [List.chain'_cons]
      have ha := h a (by simp)
      have hb := h b (by simp)
      refine ⟨by omega, ?_⟩
      exact chain_ge_of_const c (b :: t) fun x hx => h x (List.mem_cons_of_mem a hx)

theorem bal_of_const (c : ℕ) (l : List ℕ) (h : ∀ x ∈ l, x = c) : Bal l := by
  refine ⟨chain_ge_of_const c l h, ?_⟩
  cases l with
  | nil => simp
  | cons a t =>
      have ha := h a (by simp)
      have hL : (a :: t).getLast (by simp) ∈ a :: t := List.getLast_mem _
      have hL' := h _ hL
      subst ha
      rw [List.getLast?_eq_getLast _ (by simp)]
      simp [hL']

/-- A balanced profile whose first (pointed-at) entry is zero is all-zero. -/
theorem bal_zero_all (tl : List ℕ) (h : Bal (0 :: tl)) : ∀ x ∈ (0 : ℕ) :: tl, x = 0 := by
  intro x hx
  rcases List.mem_cons.mp hx with rfl | hx
  · rfl
  · exact Nat.le_zero.mp (chain_ge_head_ge tl 0 h.1 x hx)

/-- Serving one packet at the pointer preserves balance: pop the head,
advance, and the profile stays non-increasing with spread at most one. -/
theorem bal_pop (a : ℕ) (tl : List ℕ) (h : Bal (a :: tl)) (ha : 1 ≤ a) :
    Bal (tl ++ [a - 1]) := by
  obtain ⟨hchain, hspread⟩ := h
  cases tl with
  | nil =>
      refine ⟨List.chain'_singleton _, ?_⟩
      simp
  | cons b t =>
      have hlink : b ≤ a := (List.chain'_cons.mp hchain).1
      have hchain' : List.Chain' (fun x y => y ≤ x) (b :: t) :=
        (List.chain'_cons.mp hchain).2
      have hLne : (b :: t) ≠ [] := by simp
      have hlast : (b :: t).getLast? = some ((b :: t).getLast hLne) :=
        List.getLast?_eq_getLast _ hLne
      have hlastmem : (b :: t).getLast hLne ∈ b :: t := List.getLast_mem _
      have hLle : (b :: t).getLast hLne ≤ a := by
        rcases List.mem_cons.mp hlastmem with heq | hmem
        · rw [heq]; exact hlink
        · exact le_trans (chain_ge_head_ge t b hchain' _ hmem) hlink
      have hspread' : a ≤ (b :: t).getLast hLne + 1 := by
        rw [List.getLast?_cons_cons, hlast] at hspread
        simpa using hspread
      constructor
      · rw [List.chain'_append]
        refine ⟨hchain', List.chain'_singleton _, ?_⟩
        intro y hy z hz
        rw [hlast, Option.mem_def, Option.some.injEq] at hy
        simp only [List.head?_cons, Option.mem_def, Option.some.injEq] at hz
        subst hy
        subst hz
        omega
      · rw [List.getLast?_concat]
        simp only [List.cons_append, List.head?_cons, Option.getD_some]
        omega
theorem sumQueues_eq_sum : ∀ l : List User,
    sumQueues l = (l.map fun u => u.packetQueue.length).sum
  | [] => rfl
  | u :: t => by
      simp only [sumQueues, List.map_cons, List.sum_cons, sumQueues_eq_sum t]

theorem totalQueueLength_eq (s : SimState) : totalQueueLength s = (qLengths s).sum :=
  sumQueues_eq_sum s.users

theorem exists_pos_of_sum_pos : ∀ l : List ℕ, 0 < l.sum → ∃ b ∈ l, 0 < b
  | [], h => by simp at h
  | a :: t, h => by
      rcases Nat.eq_zero_or_pos a with ha | ha
      · subst ha
        simp only [List.sum_cons, Nat.zero_add] at h
        obtain ⟨b, hb, hbp⟩ := exists_pos_of_sum_pos t h
        exact ⟨b, List.mem_cons_of_mem 0 hb, hbp⟩
      · exact ⟨a, by simp, ha⟩

theorem sum_zero_of_all_zero : ∀ l : List ℕ, (∀ x ∈ l, x = 0) → l.sum = 0
  | [], _ => rfl
  | a :: t, h => by
      have ha := h a (by simp)
      have ht := sum_zero_of_all_zero t fun x hx => h x (List.mem_cons_of_mem a hx)
      simp [ha, ht]

theorem allEmpty_of_sum_zero : ∀ l : List User, sumQueues l = 0 →
    (l.all fun u => u.packetQueue.isEmpty) = true
  | [], _ => rfl
  | u :: t, h => by
      simp only [sumQueues] at h
      have h1 : u.packetQueue = [] := List.length_eq_zero.mp (by omega)
      have h2 := allEmpty_of_sum_zero t (by omega)
      simp [List.all_cons, h2, h1]

theorem set_idx_self {α : Type} : ∀ (l : List α) (i : ℕ) (a : α),
    l[i]? = some a → l.set i a = l
  | [], i, a, h => by simp at h
  | x :: t, 0, a, h => by
      simp only [List.getElem?_cons_zero, Option.some.injEq] at h
      rw [List.set, h]
  | x :: t, i + 1, a, h => by
      simp only [List.getElem?_cons_succ] at h
      rw [List.set, set_idx_self t i a h]

/-- Every packet the generation loop appends carries an arrival stamp in
`[base, base + (i + n - 1)/100]`. -/
theorem generateFrom_arrivals : ∀ (n : ℕ) (u : User) (i : ℕ) (base : ℚ),
    ∀ pkt ∈ (generateFrom base u i n).packetQueue,
      pkt ∈ u.packetQueue ∨
      (base ≤ pkt.arrivalTime ∧ pkt.arrivalTime ≤ base + ((i + n - 1 : ℕ) : ℚ) / 100)
  | 0, u, i, base, pkt, h => Or.inl h
  | n + 1, u, i, base, pkt, h => by
      simp only [generateFrom] at h
      split at h
      · rcases generateFrom_arrivals n _ (i + 1) base pkt h with h' | h'
        · exact Or.inl h'
        · refine Or.inr ⟨h'.1, ?_⟩
          have he : (i + 1 + n - 1 : ℕ) = (i + (n + 1) - 1 : ℕ) := by omega
          rw [he] at h'
          exact h'.2
      · rcases generateFrom_arrivals n _ (i + 1) base pkt h with h' | h'
        · rcases List.mem_append.mp h' with h'' | h''
          · exact Or.inl h''
          · simp only [List.mem_singleton] at h''
            subst h''
            refine Or.inr ⟨?_, ?_⟩
            · have : (0 : ℚ) ≤ (i : ℚ) / 100 := by positivity
              simp only []
              linarith
            · have hle : (i : ℚ) ≤ ((i + (n + 1) - 1 : ℕ) : ℚ) := by
                exact_mod_cast Nat.le_sub_one_of_lt (by omega)
              simp only []
              linarith
        · refine Or.inr ⟨h'.1, ?_⟩
          have he : (i + 1 + n - 1 : ℕ) = (i + (n + 1) - 1 : ℕ) := by omega
          rw [he] at h'
          exact h'.2

/-- Standing invariant of the no-timeout regime: the sub-channels as
constructed, the pointer in range, every queued arrival in `[0, maxA]`, the
clock within the budget `B`, and a balanced queue profile seen from the
round-robin pointer. -/
structure Good (n : ℕ) (maxA B : ℚ) (s : SimState) : Prop where
  chans : s.subChannels = SUB_CHANNELS.map fun bw => ⟨bw, false⟩
  len : s.users.length = n
  rrlt : s.currentRoundRobinUser < n
  arrivals : ∀ u ∈ s.users, ∀ pkt ∈ u.packetQueue,
    0 ≤ pkt.arrivalTime ∧ pkt.arrivalTime ≤ maxA
  clock : max s.currentTime maxA + totalQueueLength s * ttmax ≤ B
  bal : Bal (rotatedQ (qLengths s) s.currentRoundRobinUser)
/-- Core preservation: under the standing invariant, a sub-channel iteration
cannot fire the timeout branch, keeps the invariant, never turns the flag
back to `true`, and — when any packet is queued and the sub-channel index is
real — leaves the flag `false`. -/
theorem subChannelStep_good (n : ℕ) (maxA B : ℚ) (s : SimState) (ci : ℕ) (q : Bool)
    (hB : B ≤ TIMEOUT_LIMIT) (hg : Good n maxA B s) :
    Good n maxA B (subChannelStep s ci q).1 ∧
    ((subChannelStep s ci q).2 = true → q = true) ∧
    (0 < totalQueueLength s → ci < 3 → (subChannelStep s ci q).2 = false) := by
  have hrrn := hg.rrlt
  have hn : 0 < n := by omega
  have hlen := hg.len
  have hqlen : (qLengths s).length = s.users.length := List.length_map _ _
  unfold subChannelStep
  split
  next heq =>
    refine ⟨hg, fun h => h, fun _ hci => ?_⟩
    rw [hg.chans] at heq
    have : (SUB_CHANNELS.map fun bw => (⟨bw, false⟩ : SubChannel)).length ≤ ci := by
      simpa using List.getElem?_eq_none_iff.mp heq
    simp [SUB_CHANNELS] at this
    omega
  next ch heq =>
    have hchmem : ch ∈ SUB_CHANNELS.map fun bw => (⟨bw, false⟩ : SubChannel) := by
      rw [hg.chans] at heq
      exact mem_of_idx _ _ _ heq
    have hch3 : ch = ⟨2, false⟩ ∨ ch = ⟨4, false⟩ ∨ ch = ⟨10, false⟩ := by
      simpa [SUB_CHANNELS] using hchmem
    have hbusy : ch.busy = false := by
      rcases hch3 with h | h | h <;> rw [h]
    have hchid : { ch with busy := false } = ch := by
      cases ch with
      | mk bw bs =>
          simp only at hbusy
          rw [hbusy]
    have htt : 0 < (PACKET_SIZE_BYTES * 8 : ℚ) / calculateDataRate ch.bandwidth ∧
        (PACKET_SIZE_BYTES * 8 : ℚ) / calculateDataRate ch.bandwidth ≤ ttmax := by
      rcases hch3 with h | h | h <;>
        (rw [h]; constructor <;>
          norm_num [ttmax, calculateDataRate, PACKET_SIZE_BYTES, MODULATION_BITS, CODING_RATE])
    rw [if_neg (by simp [hbusy])]
    split
    next heq2 =>
      have : s.users.length ≤ s.currentRoundRobinUser :=
        List.getElem?_eq_none_iff.mp heq2
      omega
    next user heq2 =>
      have hupkt : user ∈ s.users := mem_of_idx _ _ _ heq2
      have hrotlen : (rotatedQ (qLengths s) s.currentRoundRobinUser).length = s.users.length := by
        rw [rotatedQ_length, hqlen]
      have hhead : (rotatedQ (qLengths s) s.currentRoundRobinUser).head?
          = some user.packetQueue.length := by
        rw [rotatedQ_head _ _ (by omega)]
        unfold qLengths
        rw [List.getElem?_map, heq2]
        rfl
      split
      next hq =>
        -- the pointed-at queue is empty: by balance every queue is empty
        have hall : ∀ x ∈ qLengths s, x = 0 := by
          cases hrot : rotatedQ (qLengths s) s.currentRoundRobinUser with
          | nil => rw [hrot] at hrotlen; simp at hrotlen; omega
          | cons a tl =>
              have ha : a = 0 := by
                rw [hrot] at hhead
                simp only [List.head?_cons, Option.some.injEq] at hhead
                rw [hhead, hq]
                rfl
              subst ha
              have hbal := hg.bal
              rw [hrot] at hbal
              intro x hx
              exact bal_zero_all tl hbal x (hrot ▸ mem_rotatedQ.mpr hx)
        have hLzero : totalQueueLength s = 0 := by
          rw [totalQueueLength_eq]
          exact sum_zero_of_all_zero _ hall
        refine ⟨?_, fun h => h, fun hL _ => by omega⟩
        refine ⟨hg.chans, hg.len, ?_, hg.arrivals, hg.clock, ?_⟩
        · rw [hlen]
          exact Nat.mod_lt _ hn
        · exact bal_of_const 0 _ fun x hx => hall x (mem_rotatedQ.mp hx)
      next pkt rest hq =>
        have harr : 0 ≤ pkt.arrivalTime ∧ pkt.arrivalTime ≤ maxA :=
          hg.arrivals user hupkt pkt (by rw [hq]; exact List.mem_cons_self _ _)
        have hLq : (0 : ℚ) ≤ (totalQueueLength s : ℚ) * ttmax :=
          mul_nonneg (Nat.cast_nonneg _) (le_of_lt ttmax_pos)
        have ht : s.currentTime ≤ TIMEOUT_LIMIT := by
          have := hg.clock
          have h1 : s.currentTime ≤ max s.currentTime maxA := le_max_left _ _
          linarith
        have hno : ¬ (TIMEOUT_LIMIT <
            (if s.currentTime < pkt.arrivalTime then pkt.arrivalTime else s.currentTime)
              - pkt.arrivalTime) := by
          rw [not_lt]
          by_cases hw : s.currentTime < pkt.arrivalTime
          · rw [if_pos hw]
            norm_num [TIMEOUT_LIMIT]
          · rw [if_neg hw]
            linarith [harr.1]
        dsimp only []
        rw [if_neg hno]
        dsimp only []
        refine ⟨?_, fun h => by simp at h, fun _ _ => rfl⟩
        -- the transmit branch: establish each invariant field
        have hsum := sumQueues_set s.users s.currentRoundRobinUser user
          { user with packetQueue := rest } heq2
        rw [hq] at hsum
        simp only [List.length_cons] at hsum
        have hLr : (totalQueueLength s : ℚ)
            = (sumQueues (s.users.set s.currentRoundRobinUser
                { user with packetQueue := rest }) : ℚ) + 1 := by
          have : totalQueueLength s
              = sumQueues (s.users.set s.currentRoundRobinUser
                  { user with packetQueue := rest }) + 1 := by
            unfold totalQueueLength
            omega
          exact_mod_cast this
        refine ⟨?_, ?_, ?_, ?_, ?_, ?_⟩
        · -- sub-channels are restored
          show (s.subChannels.set ci { ch with busy := true }).set ci { ch with busy := false }
              = SUB_CHANNELS.map fun bw => ⟨bw, false⟩
          rw [List.set_set, hchid, set_idx_self _ _ _ heq]
          exact hg.chans
        · show (s.users.set _ _).length = n
          rw [List.length_set]
          exact hg.len
        · show (s.currentRoundRobinUser + 1) % s.users.length < n
          rw [hlen]
          exact Nat.mod_lt _ hn
        · -- arrival stamps
          intro u' hu' pkt' hp'
          rcases List.mem_or_eq_of_mem_set hu' with h | h
          · exact hg.arrivals u' h pkt' hp'
          · subst h
            exact hg.arrivals user hupkt pkt'
              (by rw [hq]; exact List.mem_cons_of_mem _ hp')
        · -- clock budget
          show max ((if s.currentTime < pkt.arrivalTime then pkt.arrivalTime else s.currentTime)
                + (PACKET_SIZE_BYTES * 8 : ℚ) / calculateDataRate ch.bandwidth) maxA
              + (sumQueues (s.users.set s.currentRoundRobinUser
                  { user with packetQueue := rest }) : ℚ) * ttmax ≤ B
          have hclock := hg.clock
          rw [hLr] at hclock
          have hring : ((sumQueues (s.users.set s.currentRoundRobinUser
                { user with packetQueue := rest }) : ℚ) + 1) * ttmax
              = (sumQueues (s.users.set s.currentRoundRobinUser
                  { user with packetQueue := rest }) : ℚ) * ttmax + ttmax := by
            ring
          rw [hring] at hclock
          have hmax1 : (if s.currentTime < pkt.arrivalTime then pkt.arrivalTime
                else s.currentTime)
              + (PACKET_SIZE_BYTES * 8 : ℚ) / calculateDataRate ch.bandwidth
              ≤ max s.currentTime maxA + ttmax := by
            by_cases hw : s.currentTime < pkt.arrivalTime
            · rw [if_pos hw]
              have := le_max_right s.currentTime maxA
              linarith [harr.2, htt.2]
            · rw [if_neg hw]
              have := le_max_left s.currentTime maxA
              linarith [htt.2]
          have hmax2 : maxA ≤ max s.currentTime maxA + ttmax := by
            have := le_max_right s.currentTime maxA
            linarith [ttmax_pos]
          have hmax := max_le hmax1 hmax2
          linarith
        · -- balance: pop the pointed-at head, advance the pointer
          simp only [qLengths, List.map_set]
          rw [show s.users.length = (s.users.map fun u => u.packetQueue.length).length from
            (List.length_map _ _).symm]
          rw [rotatedQ_set_succ _ _ _ (by rw [List.length_map]; omega)]
          rw [show (s.users.map fun u => u.packetQueue.length) = qLengths s from rfl]
          cases hrot : rotatedQ (qLengths s) s.currentRoundRobinUser with
          | nil => rw [hrot] at hrotlen; simp at hrotlen; omega
          | cons a tl =>
              have ha : a = rest.length + 1 := by
                rw [hrot] at hhead
                simp only [List.head?_cons, Option.some.injEq] at hhead
                rw [hhead, hq]
                rfl
              have hbal := hg.bal
              rw [hrot] at hbal
              have := bal_pop a tl hbal (by omega)
              simpa [ha] using this
/-- The invariant is carried through a whole pass; if any packet is queued,
the pass ends with the flag `false`. -/
theorem runPassAux_good (n : ℕ) (maxA B : ℚ) (hB : B ≤ TIMEOUT_LIMIT) :
    ∀ (cis : List ℕ) (s : SimState) (q : Bool), Good n maxA B s →
      Good n maxA B (runPassAux s q cis).1 ∧
      ((runPassAux s q cis).2 = true → q = true) ∧
      (0 < totalQueueLength s → (∀ ci ∈ cis, ci < 3) → cis ≠ [] →
        (runPassAux s q cis).2 = false)
  | [], s, q, hg => ⟨hg, fun h => h, fun _ _ hne => absurd rfl hne⟩
  | ci :: rest, s, q, hg => by
      have hstep := subChannelStep_good n maxA B s ci q hB hg
      have hih := runPassAux_good n maxA B hB rest (subChannelStep s ci q).1
        (subChannelStep s ci q).2 hstep.1
      simp only [runPassAux]
      refine ⟨hih.1, fun h => hstep.2.1 (hih.2.1 h), ?_⟩
      intro hL hcis _
      have hflag : (subChannelStep s ci q).2 = false :=
        hstep.2.2 hL (hcis ci (by simp))
      cases hfin : (runPassAux (subChannelStep s ci q).1 (subChannelStep s ci q).2 rest).2 with
      | false => rfl
      | true =>
          have := hih.2.1 hfin
          rw [hflag] at this
          exact Bool.noConfusion this

/-- A pass preserves the invariant, and can leave the `allQueuesEmpty`
flag `true` only when every queue was already empty. -/
theorem runPass_good (n : ℕ) (maxA B : ℚ) (hB : B ≤ TIMEOUT_LIMIT)
    (s : SimState) (hg : Good n maxA B s) :
    Good n maxA B (runPass s).1 ∧
    ((runPass s).2 = true → totalQueueLength s = 0) := by
  have hlen3 : s.subChannels.length = 3 := by
    rw [hg.chans]
    rfl
  have hr : List.range s.subChannels.length = [0, 1, 2] := by
    rw [hlen3]
    rfl
  unfold runPass
  rw [hr]
  have h := runPassAux_good n maxA B hB [0, 1, 2] s true hg
  refine ⟨h.1, ?_⟩
  intro hflag
  by_contra hL
  have hLpos : 0 < totalQueueLength s := Nat.pos_of_ne_zero hL
  have hfalse := h.2.2 hLpos (by decide) (by simp)
  rw [hfalse] at hflag
  exact Bool.noConfusion hflag

/-- In the no-timeout regime the loop exits only through the all-empty
branch, with the clock still far below the ceiling. -/
theorem runLoop_good (n : ℕ) (maxA B : ℚ) (hB : B ≤ TIMEOUT_LIMIT) :
    ∀ (fuel : ℕ) (s r : SimState), Good n maxA B s → runLoop fuel s = some r →
      allQueuesEmptyState r = true ∧ r.currentTime < MAX_SIMULATION_TIME
  | 0, s, r, _, h => by simp [runLoop] at h
  | fuel + 1, s, r, hg, h => by
      have hp := runPass_good n maxA B hB s hg
      have hclk : (runPass s).1.currentTime < MAX_SIMULATION_TIME := by
        have hc := hp.1.clock
        have h1 : (runPass s).1.currentTime ≤ max (runPass s).1.currentTime maxA :=
          le_max_left _ _
        have h2 : (0 : ℚ) ≤ (totalQueueLength (runPass s).1 : ℚ) * ttmax :=
          mul_nonneg (Nat.cast_nonneg _) (le_of_lt ttmax_pos)
        have h3 : TIMEOUT_LIMIT < MAX_SIMULATION_TIME := by
          norm_num [TIMEOUT_LIMIT, MAX_SIMULATION_TIME]
        linarith
      simp only [runLoop] at h
      split at h
      next hc =>
        injection h with h
        subst h
        rcases hc with hflag | htime
        · have hLs := hp.2 hflag
          have hle := (runPass_measure s).1
          have hL' : totalQueueLength (runPass s).1 = 0 := by omega
          exact ⟨allEmpty_of_sum_zero _ hL', hclk⟩
        · exact absurd htime (not_le.mpr hclk)
      next => exact runLoop_good n maxA B hB fuel (runPass s).1 r hp.1 h

/-- The generated initial state satisfies the standing invariant: equal
queues everywhere, clock zero, pointer at user 0. -/
theorem good_genState (n p : ℕ) (hn : 1 ≤ n) :
    Good n (maxArrival p) (noTimeoutBound n p) (genState n p) := by
  have husers : (genState n p).users
      = (List.range n).map fun k => generatePackets ⟨k, [], 0⟩ p 0 := by
    unfold genState initState initUsers
    simp [List.map_map, Function.comp]
  have hA : (0 : ℚ) ≤ maxArrival p := div_nonneg (Nat.cast_nonneg _) (by norm_num)
  refine ⟨rfl, ?_, ?_, ?_, ?_, ?_⟩
  · rw [husers]
    simp
  · show 0 < n
    omega
  · intro u hu pkt hp
    rw [husers] at hu
    simp only [List.mem_map, List.mem_range] at hu
    obtain ⟨k, hk, rfl⟩ := hu
    rcases generateFrom_arrivals p ⟨k, [], 0⟩ 0 0 pkt hp with h | h
    · exact absurd h (List.not_mem_nil pkt)
    · have he : (0 + p - 1 : ℕ) = (p - 1 : ℕ) := by omega
      rw [he] at h
      unfold maxArrival
      exact ⟨h.1, by linarith [h.2]⟩
  · show max (0 : ℚ) (maxArrival p) + (totalQueueLength (genState n p) : ℚ) * ttmax
        ≤ noTimeoutBound n p
    rw [max_eq_right hA]
    have hLle : totalQueueLength (genState n p) ≤ n * p := by
      rw [totalQueueLength_eq]
      have hb : ∀ x ∈ qLengths (genState n p), x ≤ p := by
        intro x hx
        unfold qLengths at hx
        rw [husers] at hx
        simp only [List.map_map, List.mem_map, List.mem_range, Function.comp] at hx
        obtain ⟨k, hk, rfl⟩ := hx
        have hs := (generatePackets_spec ⟨k, [], 0⟩ p 0 (by simp [MAX_QUEUE_SIZE])).1
        simp only [List.length_nil, Nat.zero_add] at hs
        rw [hs]
        exact min_le_left _ _
      have hsum := List.sum_le_card_nsmul (qLengths (genState n p)) p hb
      rw [smul_eq_mul] at hsum
      have hlen : (qLengths (genState n p)).length = n := by
        unfold qLengths
        rw [husers]
        simp
      rw [hlen] at hsum
      exact hsum
    have hc : ((totalQueueLength (genState n p)) : ℚ) ≤ ((n * p : ℕ) : ℚ) := by
      exact_mod_cast hLle
    have hmul := mul_le_mul_of_nonneg_right hc (le_of_lt ttmax_pos)
    unfold noTimeoutBound
    linarith
  · show Bal (rotatedQ (qLengths (genState n p)) 0)
    rw [rotatedQ_zero]
    apply bal_of_const (min p MAX_QUEUE_SIZE)
    intro x hx
    unfold qLengths at hx
    rw [husers] at hx
    simp only [List.map_map, List.mem_map, List.mem_range, Function.comp] at hx
    obtain ⟨k, hk, rfl⟩ := hx
    have hs := (generatePackets_spec ⟨k, [], 0⟩ p 0 (by simp [MAX_QUEUE_SIZE])).1
    simpa using hs

/-- Exact exit, in full generality for the no-timeout regime: whenever the
whole run's clock budget fits under the timeout limit — as it does for every
population the program simulates — the loop exits with every queue empty and
the clock below the ceiling. -/
theorem runSimulation_exact (n p : ℕ) (hn : 1 ≤ n)
    (hH : noTimeoutBound n p ≤ TIMEOUT_LIMIT) :
    (runSimulation n p).map (fun s =>
        allQueuesEmptyState s && decide (s.currentTime < MAX_SIMULATION_TIME))
      = some true := by
  have hg := good_genState n p hn
  obtain ⟨r, hr⟩ := runLoop_total (totalQueueLength (genState n p) + 1) (genState n p)
    (Nat.lt_succ_self _)
  have hres := runLoop_good n (maxArrival p) (noTimeoutBound n p) hH _ (genState n p) r hg hr
  unfold runSimulation
  rw [hr]
  dsimp only [Option.map]
  rw [show allQueuesEmptyState { r with totalTime := r.currentTime }
    = allQueuesEmptyState r from rfl]
  rw [hres.1]
  simp [hres.2]

end SubChannel

namespace MultiStream

/-! ### Multi-stream (MU-MIMO) variant: constants and data model -/

def BANDWIDTH_MHZ : ℚ := 20
def MODULATION_BITS : ℚ := 8
def CODING_RATE : ℚ := 5 / 6
def PACKET_SIZE_BYTES : ℕ := 1024
def MAX_BACKOFF : ℕ := 10
def MAX_STREAMS : ℕ := 4
def MAX_SIMULATION_TIME : ℚ := 5000
def MIN_POWER : ℚ := 1 / 2
def MAX_POWER : ℚ := 3 / 2
def MAX_DISTANCE : ℚ := 1000

def calculateTransmissionRate (numStreams : ℕ) (powerFactor : ℚ) : ℚ :=
  let adjustedBandwidth := BANDWIDTH_MHZ / numStreams
  adjustedBandwidth * 1000000 * MODULATION_BITS * CODING_RATE * powerFactor

structure Packet where
  packetID : ℕ
  arrivalTimestamp : ℚ
  transmissionStart : ℚ
  transmissionEnd : ℚ
deriving Repr, DecidableEq

/-- The frequency channel is a vector of per-stream busy flags. -/
def findAvailableStream (occupiedStreams : List Bool) : Option ℕ :=
  occupiedStreams.findIdx? fun b => !b

def reserveStream (occupiedStreams : List Bool) (streamIdx : ℕ) : List Bool :=
  occupiedStreams.set streamIdx true

def releaseStream (occupiedStreams : List Bool) (streamIdx : ℕ) : List Bool :=
  occupiedStreams.set streamIdx false

structure User where
  userID : ℕ
  distanceFromAP : ℚ
  packetQueue : List Packet
deriving Repr, DecidableEq

def generatePackets (u : User) (packetCount : ℕ) (currentTimestamp : ℚ) : User :=
  { u with packetQueue := u.packetQueue ++
      (List.range packetCount).map fun i => ⟨i, currentTimestamp + i / 100, 0, 0⟩ }

def calculatePowerFactor (u : User) : ℚ :=
  MAX_POWER - u.distanceFromAP / MAX_DISTANCE * (MAX_POWER - MIN_POWER)

/-- Result of `AccessPoint::sendPacket`: success flag, the packet with its
stamps written, the updated clock, and the channel after release. -/
structure SendResult where
  success : Bool
  pkt : Packet
  timestamp : ℚ
  chan : List Bool
deriving Repr, DecidableEq

def sendPacket (pkt : Packet) (currentTimestamp : ℚ) (transmissionRate : ℚ)
    (streamIdx : ℕ) (chan : List Bool) : SendResult :=
  let chan1 := reserveStream chan streamIdx
  let timeToTransmit := (PACKET_SIZE_BYTES * 8 : ℚ) / transmissionRate
  let pkt1 := { pkt with transmissionStart := currentTimestamp,
                         transmissionEnd := currentTimestamp + timeToTransmit }
  if MAX_SIMULATION_TIME < pkt1.transmissionEnd then
    -- packet dropped: the stream is still released, clock unchanged
    ⟨false, pkt1, currentTimestamp, releaseStream chan1 streamIdx⟩
  else
    ⟨true, pkt1, pkt1.transmissionEnd, releaseStream chan1 streamIdx⟩

/-- One draw of `randomBackoffTime`: `uniform_int_distribution(1, MAX_BACKOFF)`
milliseconds, driven by the `k`-th value of the backoff stream `b`. -/
def randomBackoffTime (b : ℕ → ℕ) (k : ℕ) : ℚ :=
  ((1 + b k % MAX_BACKOFF : ℕ) : ℚ) / 1000

inductive WaitResult where
  | acquired (streamIdx : ℕ) (t : ℚ) (k : ℕ)
  | overflow (t : ℚ) (k : ℕ)
deriving Repr, DecidableEq

/-- The `while ((streamIdx = findAvailableStream()) == -1)` acquire loop:
each unsuccessful probe adds a random backoff to the clock and throws once
the clock passes the simulation ceiling. -/
def waitForStream (b : ℕ → ℕ) : ℕ → List Bool → ℚ → ℕ → Option WaitResult
  | 0, _, _, _ => none
  | fuel + 1, chan, t, k =>
    match findAvailableStream chan with
    | some idx => some (.acquired idx t k)
    | none =>
      let t' := t + randomBackoffTime b k
      if MAX_SIMULATION_TIME < t' then some (.overflow t' (k + 1))
      else waitForStream b fuel chan t' (k + 1)

structure TxRecord where
  arrival : ℚ
  startT : ℚ
  endT : ℚ
deriving Repr, DecidableEq

structure SimState where
  users : List User
  chan : List Bool
  currentTime : ℚ
  transmittedPackets : ℕ
  droppedPackets : ℕ
  totalLatency : ℚ
  maxPacketLatency : ℚ
  drawCount : ℕ
  history : List TxRecord
deriving Repr, DecidableEq

/-- The metrics block run after `sendPacket`: on success, a packet counts as
transmitted only when its latency is strictly positive; on failure the drop
counter increments. -/
def recordOutcome (s1 : SimState) (res : SendResult) : SimState :=
  if res.success then
    let latency := res.pkt.transmissionEnd - res.pkt.arrivalTimestamp
    if 0 < latency then
      { s1 with totalLatency := s1.totalLatency + latency,
                maxPacketLatency := max s1.maxPacketLatency latency,
                transmittedPackets := s1.transmittedPackets + 1,
                history := s1.history ++
                  [⟨res.pkt.arrivalTimestamp, res.pkt.transmissionStart, res.pkt.transmissionEnd⟩] }
    else s1
  else { s1 with droppedPackets := s1.droppedPackets + 1 }

/-- Processing of one user inside the per-pass `for (auto& user : users)`
loop: acquire a stream (with backoff, possibly aborting the run), send the
head packet, record the outcome, pop the packet.  `Except.error` is the
thrown simulation-ceiling abort. -/
def processUser (b : ℕ → ℕ) (waitFuel : ℕ) (s : SimState) (ui : ℕ) :
    Option (Except SimState SimState) :=
  match s.users[ui]? with
  | none => some (.ok s)
  | some user =>
    match user.packetQueue with
    | [] => some (.ok s)
    | pkt :: rest =>
      match waitForStream b waitFuel s.chan s.currentTime s.drawCount with
      | none => none
      | some (.overflow t' k') =>
        some (.error { s with currentTime := t', drawCount := k' })
      | some (.acquired idx t' k') =>
        let powerFactor := calculatePowerFactor user
        let res := sendPacket pkt t' (calculateTransmissionRate MAX_STREAMS powerFactor) idx s.chan
        let s1 := { s with chan := res.chan, currentTime := res.timestamp, drawCount := k' }
        let s2 := recordOutcome s1 res
        some (.ok { s2 with users := s.users.set ui { user with packetQueue := rest } })

/-- One pass of the `for (auto& user : users)` loop, tracking the
`allQueuesEmpty` flag. -/
def passUsers (b : ℕ → ℕ) (waitFuel : ℕ) :
    List ℕ → SimState → Bool → Option (Except SimState (SimState × Bool))
  | [], s, q => some (.ok (s, q))
  | ui :: rest, s, q =>
    match s.users[ui]? with
    | none => passUsers b waitFuel rest s q
    | some user =>
      if user.packetQueue.isEmpty then passUsers b waitFuel rest s q
      else
        match processUser b waitFuel s ui with
        | none => none
        | some (.error sa) => some (.error sa)
        | some (.ok s') => passUsers b waitFuel rest s' false

/-- The `while (true)` loop; the `Bool` of the result marks an aborted run
(the caught simulation-ceiling exception). -/
def runLoop (b : ℕ → ℕ) (waitFuel : ℕ) : ℕ → SimState → Option (Bool × SimState)
  | 0, _ => none
  | fuel + 1, s =>
    match passUsers b waitFuel (List.range s.users.length) s true with
    | none => none
    | some (.error sa) => some (true, sa)
    | some (.ok (s', allQE)) =>
      if allQE = true ∨ MAX_SIMULATION_TIME < s'.currentTime then some (false, s')
      else runLoop b waitFuel fuel s'

def allFreeChannel : List Bool := List.replicate MAX_STREAMS false

/-- Construction of the simulation's users: user `i` is given distance
`rand() % 1001`, modelled by the `i`-th value of the distance stream `r`. -/
def initUsers (r : ℕ → ℕ) (userCount : ℕ) : List User :=
  (List.range userCount).map fun i => ⟨i, ((r i % 1001 : ℕ) : ℚ), []⟩

/-- `runSimulation` generalized over the initial channel occupancy (the
member state of the `WiFiSimulation` object when the method starts; the
constructor produces the all-free channel). -/
def initState (chan0 : List Bool) (r : ℕ → ℕ) (userCount packetsPerUser : ℕ) : SimState :=
  { users := (initUsers r userCount).map fun u => generatePackets u packetsPerUser 0
    chan := chan0
    currentTime := 0
    transmittedPackets := 0
    droppedPackets := 0
    totalLatency := 0
    maxPacketLatency := 0
    drawCount := 0
    history := [] }

def runSimulationGen (chan0 : List Bool) (r b : ℕ → ℕ) (userCount packetsPerUser : ℕ) :
    Option (Bool × SimState) :=
  runLoop b 5000002 (packetsPerUser + 2) (initState chan0 r userCount packetsPerUser)

def runSimulation (r b : ℕ → ℕ) (userCount packetsPerUser : ℕ) :
    Option (Bool × SimState) :=
  runSimulationGen allFreeChannel r b userCount packetsPerUser

structure Report where
  throughputMbps : ℚ
  avgLatencyMs : ℚ
  maxLatencyMs : ℚ
  droppedPackets : ℕ
deriving Repr, DecidableEq

def displayResults (s : SimState) (userCount : ℕ) : Option Report :=
  if s.transmittedPackets = 0 then none
  else
    let throughput := (s.transmittedPackets * PACKET_SIZE_BYTES * 8 : ℚ) / s.currentTime
    let avgLatency := if 0 < s.transmittedPackets then s.totalLatency / s.transmittedPackets else 0
    some
      { throughputMbps :=
          if userCount = 1 then throughput / 1000000 / userCount + 1
          else if userCount = 10 then throughput / 1000000 / userCount + 3
          else throughput / 1000000 / userCount + 2
        avgLatencyMs := avgLatency * 1000
        maxLatencyMs := s.maxPacketLatency * 1000
        droppedPackets := s.droppedPackets }

/-- The driver loop of `main`, generalized over the per-run initial channel
state: one independent simulation per configured population size, each
followed by `displayResults`. -/
def mainDriver (r b : ℕ → ℕ) (cfgs : List (ℕ × List Bool)) (packetsPerUser : ℕ) :
    List (Option (Option Report)) :=
  cfgs.map fun nc =>
    (runSimulationGen nc.2 r b nc.1 packetsPerUser).map fun x => displayResults x.2 nc.1

/-! ### Multi-stream variant: lemmas -/

/-- With a free stream in sight the acquire loop returns at once: no backoff
is added, the clock and the draw counter are untouched. -/
theorem waitForStream_free (b : ℕ → ℕ) (fuel : ℕ) (chan : List Bool) (t : ℚ) (k idx : ℕ)
    (hfree : findAvailableStream chan = some idx) (hfuel : 1 ≤ fuel) :
    waitForStream b fuel chan t k = some (.acquired idx t k) := by
  cases fuel with
  | zero => omega
  | succ f => simp [waitForStream, hfree]

theorem findAvailableStream_allFree : findAvailableStream allFreeChannel = some 0 := by decide

theorem waitForStream_allFree (b : ℕ → ℕ) (fuel : ℕ) (t : ℚ) (k : ℕ) (hfuel : 1 ≤ fuel) :
    waitForStream b fuel allFreeChannel t k = some (.acquired 0 t k) :=
  waitForStream_free b fuel allFreeChannel t k 0 findAvailableStream_allFree hfuel

def WaitResult.timeOf : WaitResult → ℚ
  | .acquired _ t _ => t
  | .overflow t _ => t

/-- The acquire loop never moves the clock backwards. -/
theorem waitForStream_clock_mono : ∀ (fuel : ℕ) (chan : List Bool) (t : ℚ) (k : ℕ)
    (b : ℕ → ℕ) (res : WaitResult), waitForStream b fuel chan t k = some res →
    t ≤ res.timeOf
  | 0, _, _, _, _, _, h => by simp [waitForStream] at h
  | fuel + 1, chan, t, k, b, res, h => by
      simp only [waitForStream] at h
      have hb : (0 : ℚ) < randomBackoffTime b k := by
        unfold randomBackoffTime
        have : 0 < 1 + b k % MAX_BACKOFF := by omega
        positivity
      split at h
      · simp only [Option.some.injEq] at h
        subst h
        exact le_refl _
      · split at h
        · simp only [Option.some.injEq] at h
          subst h
          simp only [WaitResult.timeOf]
          linarith
        · have := waitForStream_clock_mono fuel chan (t + randomBackoffTime b k) (k + 1) b res h
          linarith

/-- Closed form of the acquire loop on an all-busy channel with the constant
zero backoff stream: every probe adds exactly one millisecond, and the loop
throws as soon as the clock passes the ceiling. -/
theorem waitForStream_allBusy_overflow :
    ∀ (m fuel : ℕ) (t : ℚ) (k : ℕ), t ≤ MAX_SIMULATION_TIME →
    MAX_SIMULATION_TIME < t + ((m : ℚ) + 1) / 1000 →
    t + (m : ℚ) / 1000 ≤ MAX_SIMULATION_TIME →
    m + 1 ≤ fuel →
    waitForStream (fun _ => 0) fuel [true, true, true, true] t k
      = some (.overflow (t + ((m : ℚ) + 1) / 1000) (k + (m + 1)))
  | 0, fuel, t, k, h1, h2, h3, hfuel => by
      cases fuel with
      | zero => omega
      | succ f =>
        have hfind : findAvailableStream [true, true, true, true] = none := by decide
        have hback : randomBackoffTime (fun _ => 0) k = 1 / 1000 := by
          unfold randomBackoffTime MAX_BACKOFF
          norm_num
        simp only [waitForStream, hfind, hback]
        rw [if_pos (by push_cast at h2 ⊢; linarith)]
        norm_num
  | m + 1, fuel, t, k, h1, h2, h3, hfuel => by
      cases fuel with
      | zero => omega
      | succ f =>
        have hfind : findAvailableStream [true, true, true, true] = none := by decide
        have hback : randomBackoffTime (fun _ => 0) k = 1 / 1000 := by
          unfold randomBackoffTime MAX_BACKOFF
          norm_num
        have hm0 : (0 : ℚ) ≤ (m : ℚ) / 1000 := by positivity
        have hsplit : ((m : ℚ) + 1) / 1000 = (m : ℚ) / 1000 + 1 / 1000 := by ring
        have hnot : ¬ MAX_SIMULATION_TIME < t + 1 / 1000 := by
          push_cast at h3
          push_neg
          linarith
        simp only [waitForStream, hfind, hback]
        rw [if_neg hnot]
        have ih := waitForStream_allBusy_overflow m f (t + 1 / 1000) (k + 1)
          (by push_neg at hnot; exact hnot)
          (by push_cast at h2 ⊢; linarith)
          (by push_cast at h3 ⊢; linarith)
          (by omega)
        rw [ih]
        simp only [Option.some.injEq, WaitResult.overflow.injEq]
        constructor
        · push_cast
          ring
        · omega

theorem sendPacket_chan (pkt : Packet) (t rate : ℚ) (idx : ℕ) (chan : List Bool) :
    (sendPacket pkt t rate idx chan).chan = releaseStream (reserveStream chan idx) idx := by
  unfold sendPacket
  dsimp only []
  split <;> rfl

theorem sendPacket_chan_allFree (pkt : Packet) (t rate : ℚ) :
    (sendPacket pkt t rate 0 allFreeChannel).chan = allFreeChannel := by
  rw [sendPacket_chan]
  decide

/-- `recordOutcome` only touches the metric fields. -/
theorem recordOutcome_frame (s1 : SimState) (res : SendResult) :
    (recordOutcome s1 res).users = s1.users ∧
    (recordOutcome s1 res).chan = s1.chan ∧
    (recordOutcome s1 res).currentTime = s1.currentTime ∧
    (recordOutcome s1 res).drawCount = s1.drawCount := by
  unfold recordOutcome
  split
  · dsimp only []
    split <;> exact ⟨rfl, rfl, rfl, rfl⟩
  · exact ⟨rfl, rfl, rfl, rfl⟩

/-- On the all-free channel, processing a user does not depend on the
backoff stream at all, never aborts, and leaves the channel all-free. -/
theorem processUser_allFree (b b' : ℕ → ℕ) (wf : ℕ) (s : SimState) (ui : ℕ)
    (hc : s.chan = allFreeChannel) (hwf : 1 ≤ wf) :
    processUser b wf s ui = processUser b' wf s ui ∧
    ∀ x, processUser b wf s ui = some x →
      ∃ s', x = .ok s' ∧ s'.chan = allFreeChannel := by
  rcases hu : s.users[ui]? with _ | user
  · constructor
    · simp only [processUser, hu]
    · intro x hx
      simp only [processUser, hu, Option.some.injEq] at hx
      exact ⟨s, hx.symm, hc⟩
  · rcases hq : user.packetQueue with _ | ⟨pkt, rest⟩
    · constructor
      · simp only [processUser, hu, hq]
      · intro x hx
        simp only [processUser, hu, hq, Option.some.injEq] at hx
        exact ⟨s, hx.symm, hc⟩
    · have hw := waitForStream_allFree b wf s.currentTime s.drawCount hwf
      have hw' := waitForStream_allFree b' wf s.currentTime s.drawCount hwf
      rw [← hc] at hw hw'
      constructor
      · simp only [processUser, hu, hq, hw, hw']
      · intro x hx
        simp only [processUser, hu, hq, hw, Option.some.injEq] at hx
        refine ⟨_, hx.symm, ?_⟩
        dsimp only []
        rw [(recordOutcome_frame _ _).2.1]
        dsimp only []
        rw [hc]
        exact sendPacket_chan_allFree pkt s.currentTime _

/-- On the all-free channel a whole pass is independent of the backoff
stream, and the channel stays all-free. -/
theorem passUsers_allFree (b b' : ℕ → ℕ) (wf : ℕ) (hwf : 1 ≤ wf) :
    ∀ (uis : List ℕ) (s : SimState) (q : Bool), s.chan = allFreeChannel →
    passUsers b wf uis s q = passUsers b' wf uis s q ∧
    ∀ s' q', passUsers b wf uis s q = some (.ok (s', q')) → s'.chan = allFreeChannel
  | [], s, q, hc => by
      constructor
      · rfl
      · intro s' q' h
        simp only [passUsers, Option.some.injEq, Except.ok.injEq, Prod.mk.injEq] at h
        exact h.1 ▸ hc
  | ui :: rest, s, q, hc => by
      have hp := processUser_allFree b b' wf s ui hc hwf
      rcases hu : s.users[ui]? with _ | user
      · simp only [passUsers, hu]
        exact passUsers_allFree b b' wf hwf rest s q hc
      · rcases hq : user.packetQueue.isEmpty with _ | _
        · -- non-empty queue: the user is processed
          rcases hpu : processUser b wf s ui with _ | x
          · have hpu' : processUser b' wf s ui = none := hp.1 ▸ hpu
            simp only [passUsers, hu, hq, hpu, hpu']
            exact ⟨rfl, fun s' q' h => by cases h⟩
          · obtain ⟨s1, hx, hc1⟩ := hp.2 x hpu
            subst hx
            have hpu' : processUser b' wf s ui = some (.ok s1) := hp.1 ▸ hpu
            simp only [passUsers, hu, hq, hpu, hpu', Bool.false_eq_true, if_false]
            exact passUsers_allFree b b' wf hwf rest s1 false hc1
        · -- empty queue: skip
          simp only [passUsers, hu, hq, if_true]
          exact passUsers_allFree b b' wf hwf rest s q hc

/-- The whole loop, started on the all-free channel, is independent of the
backoff stream. -/
theorem runLoop_allFree (b b' : ℕ → ℕ) (wf : ℕ) (hwf : 1 ≤ wf) :
    ∀ (fuel : ℕ) (s : SimState), s.chan = allFreeChannel →
    runLoop b wf fuel s = runLoop b' wf fuel s
  | 0, _, _ => rfl
  | fuel + 1, s, hc => by
      have hp := passUsers_allFree b b' wf hwf (List.range s.users.length) s true hc
      simp only [runLoop]
      rw [← hp.1]
      rcases hps : passUsers b wf (List.range s.users.length) s true with _ | x
      · rfl
      · rcases x with sa | ⟨s', q'⟩
        · rfl
        · have hc' := hp.2 s' q' hps
          dsimp only []
          split
          · rfl
          · exact runLoop_allFree b b' wf hwf fuel s' hc'

/-- The backoff stream never influences a run of the multi-stream
simulation: a free stream always exists when the acquire loop probes the
channel, so no backoff is ever drawn. -/
theorem runSimulation_backoff_irrelevant (r b b' : ℕ → ℕ) (n p : ℕ) :
    runSimulation r b n p = runSimulation r b' n p := by
  unfold runSimulation runSimulationGen
  exact runLoop_allFree b b' 5000002 (by omega) (p + 2) _ rfl

/-! Composition lemmas for the aborted-run path. -/

theorem processUser_error (b : ℕ → ℕ) (wf : ℕ) (s : SimState) (ui : ℕ)
    (user : User) (pkt : Packet) (rest : List Packet) (t' : ℚ) (k' : ℕ)
    (hu : s.users[ui]? = some user) (hq : user.packetQueue = pkt :: rest)
    (hw : waitForStream b wf s.chan s.currentTime s.drawCount = some (.overflow t' k')) :
    processUser b wf s ui = some (.error { s with currentTime := t', drawCount := k' }) := by
  simp only [processUser, hu, hq, hw]

theorem passUsers_error_cons (b : ℕ → ℕ) (wf ui : ℕ) (uis : List ℕ) (s sa : SimState)
    (q : Bool) (user : User)
    (hu : s.users[ui]? = some user) (hne : user.packetQueue.isEmpty = false)
    (hpu : processUser b wf s ui = some (.error sa)) :
    passUsers b wf (ui :: uis) s q = some (.error sa) := by
  simp only [passUsers, hu, hne, Bool.false_eq_true, if_false, hpu]

theorem runLoop_abort (b : ℕ → ℕ) (wf fuel : ℕ) (s sa : SimState)
    (hps : passUsers b wf (List.range s.users.length) s true = some (.error sa)) :
    runLoop b wf (fuel + 1) s = some (true, sa) := by
  simp only [runLoop, hps]

/-! Clock monotonicity and history well-formedness of a processing step. -/

def exceptState (x : Except SimState SimState) : SimState :=
  match x with
  | .ok s => s
  | .error s => s

theorem calculatePowerFactor_eq (u : User) :
    calculatePowerFactor u = (1500 - u.distanceFromAP) / 1000 := by
  unfold calculatePowerFactor MAX_POWER MIN_POWER MAX_DISTANCE
  ring

theorem calculatePowerFactor_pos (u : User) (h : u.distanceFromAP < 1500) :
    0 < calculatePowerFactor u := by
  rw [calculatePowerFactor_eq]
  have : 0 < 1500 - u.distanceFromAP := by linarith
  positivity

theorem calculateTransmissionRate_pos (pf : ℚ) (h : 0 < pf) :
    0 < calculateTransmissionRate MAX_STREAMS pf := by
  unfold calculateTransmissionRate BANDWIDTH_MHZ MODULATION_BITS CODING_RATE MAX_STREAMS
  norm_num
  positivity

theorem sendPacket_pkt (pkt : Packet) (t rate : ℚ) (idx : ℕ) (chan : List Bool) :
    (sendPacket pkt t rate idx chan).pkt
      = { pkt with transmissionStart := t,
                   transmissionEnd := t + (PACKET_SIZE_BYTES * 8 : ℚ) / rate } := by
  unfold sendPacket
  dsimp only []
  split <;> rfl

theorem sendPacket_time_mono (pkt : Packet) (t rate : ℚ) (idx : ℕ) (chan : List Bool)
    (hrate : 0 < rate) : t ≤ (sendPacket pkt t rate idx chan).timestamp := by
  unfold sendPacket
  dsimp only []
  have : 0 ≤ (PACKET_SIZE_BYTES * 8 : ℚ) / rate := by
    unfold PACKET_SIZE_BYTES
    positivity
  split
  · exact le_refl _
  · dsimp only []
    linarith

/-- No operation performed while processing a user (waiting with backoff,
aborting, transmitting, dropping) ever rewinds the clock. -/
theorem processUser_clock_mono (b : ℕ → ℕ) (wf : ℕ) (s : SimState) (ui : ℕ)
    (hdist : ∀ u ∈ s.users, u.distanceFromAP < 1500) :
    ∀ x, processUser b wf s ui = some x → s.currentTime ≤ (exceptState x).currentTime := by
  rcases hu : s.users[ui]? with _ | user
  · intro x hx
    simp only [processUser, hu, Option.some.injEq] at hx
    subst hx
    exact le_refl _
  · rcases hq : user.packetQueue with _ | ⟨pkt, rest⟩
    · intro x hx
      simp only [processUser, hu, hq, Option.some.injEq] at hx
      subst hx
      exact le_refl _
    · intro x hx
      have hpf := calculatePowerFactor_pos user (hdist user (mem_of_idx _ _ _ hu))
      have hrate := calculateTransmissionRate_pos _ hpf
      rcases hwres : waitForStream b wf s.chan s.currentTime s.drawCount with _ | res
      · simp only [processUser, hu, hq, hwres] at hx
        exact Option.noConfusion hx
      · have hmono := waitForStream_clock_mono wf s.chan s.currentTime s.drawCount b res hwres
        rcases res with ⟨idx, t', k'⟩ | ⟨t', k'⟩
        · simp only [processUser, hu, hq, hwres, Option.some.injEq] at hx
          subst hx
          simp only [WaitResult.timeOf] at hmono
          have hsend := sendPacket_time_mono pkt t'
            (calculateTransmissionRate MAX_STREAMS (calculatePowerFactor user)) idx s.chan hrate
          simp only [exceptState]
          rw [(recordOutcome_frame _ _).2.2.1]
          dsimp only []
          linarith
        · simp only [processUser, hu, hq, hwres, Option.some.injEq] at hx
          subst hx
          simp only [WaitResult.timeOf] at hmono
          simp only [exceptState]
          exact hmono

theorem recordOutcome_history (s1 : SimState) (res : SendResult)
    (hord : res.pkt.transmissionStart ≤ res.pkt.transmissionEnd) :
    ∀ tr ∈ (recordOutcome s1 res).history,
      tr ∈ s1.history ∨ (tr.startT ≤ tr.endT ∧ tr.arrival < tr.endT) := by
  unfold recordOutcome
  split
  · dsimp only []
    split
    next hlat =>
      intro tr htr
      dsimp only [] at htr
      rcases List.mem_append.mp htr with h | h
      · exact Or.inl h
      · simp only [List.mem_singleton] at h
        subst h
        exact Or.inr ⟨hord, by linarith⟩
    · exact fun tr htr => Or.inl htr
  · exact fun tr htr => Or.inl htr

/-- Every record a processing step appends to the transmit history satisfies
`start ≤ end` and `arrival < end` (strictly positive latency). -/
theorem processUser_history (b : ℕ → ℕ) (wf : ℕ) (s : SimState) (ui : ℕ)
    (hdist : ∀ u ∈ s.users, u.distanceFromAP < 1500) :
    ∀ s', processUser b wf s ui = some (.ok s') →
    ∀ tr ∈ s'.history, tr ∈ s.history ∨ (tr.startT ≤ tr.endT ∧ tr.arrival < tr.endT) := by
  rcases hu : s.users[ui]? with _ | user
  · intro s' hx
    simp only [processUser, hu, Option.some.injEq, Except.ok.injEq] at hx
    subst hx
    exact fun tr htr => Or.inl htr
  · rcases hq : user.packetQueue with _ | ⟨pkt, rest⟩
    · intro s' hx
      simp only [processUser, hu, hq, Option.some.injEq, Except.ok.injEq] at hx
      subst hx
      exact fun tr htr => Or.inl htr
    · intro s' hx
      have hpf := calculatePowerFactor_pos user (hdist user (mem_of_idx _ _ _ hu))
      have hrate := calculateTransmissionRate_pos _ hpf
      rcases hwres : waitForStream b wf s.chan s.currentTime s.drawCount with _ | res
      · simp only [processUser, hu, hq, hwres] at hx
        exact Option.noConfusion hx
      · rcases res with ⟨idx, t', k'⟩ | ⟨t', k'⟩
        · simp only [processUser, hu, hq, hwres, Option.some.injEq, Except.ok.injEq] at hx
          subst hx
          intro tr htr
          dsimp only [] at htr
          have hord : (sendPacket pkt t'
              (calculateTransmissionRate MAX_STREAMS (calculatePowerFactor user)) idx s.chan).pkt.transmissionStart
              ≤ (sendPacket pkt t'
              (calculateTransmissionRate MAX_STREAMS (calculatePowerFactor user)) idx s.chan).pkt.transmissionEnd := by
            rw [sendPacket_pkt]
            dsimp only []
            have : 0 ≤ (PACKET_SIZE_BYTES * 8 : ℚ) /
                calculateTransmissionRate MAX_STREAMS (calculatePowerFactor user) := by
              unfold PACKET_SIZE_BYTES
              positivity
            linarith
          have h := recordOutcome_history _ _ hord tr htr
          dsimp only [] at h
          exact h
        · simp only [processUser, hu, hq, hwres, Option.some.injEq] at hx
          exact Except.noConfusion hx

/-- A successful transmission whose latency is not strictly positive records
nothing: the metrics state is unchanged. -/
theorem recordOutcome_noCount (s1 : SimState) (res : SendResult)
    (hs : res.success = true)
    (h : res.pkt.transmissionEnd ≤ res.pkt.arrivalTimestamp) :
    recordOutcome s1 res = s1 := by
  unfold recordOutcome
  rw [if_pos hs]
  dsimp only []
  rw [if_neg (by push_neg; linarith)]

/-- A successfully sent packet with non-positive latency is popped without
touching the transmitted or dropped counters. -/
theorem processUser_zeroLatency (b : ℕ → ℕ) (wf : ℕ) (s : SimState) (ui idx : ℕ)
    (user : User) (pkt : Packet) (rest : List Packet)
    (hu : s.users[ui]? = some user) (hq : user.packetQueue = pkt :: rest)
    (hfree : findAvailableStream s.chan = some idx) (hwf : 1 ≤ wf)
    (hend : s.currentTime + (PACKET_SIZE_BYTES * 8 : ℚ) /
        calculateTransmissionRate MAX_STREAMS (calculatePowerFactor user)
        ≤ MAX_SIMULATION_TIME)
    (hlat : s.currentTime + (PACKET_SIZE_BYTES * 8 : ℚ) /
        calculateTransmissionRate MAX_STREAMS (calculatePowerFactor user)
        ≤ pkt.arrivalTimestamp) :
    ∃ s', processUser b wf s ui = some (.ok s') ∧
      s'.transmittedPackets = s.transmittedPackets ∧
      s'.droppedPackets = s.droppedPackets ∧
      s'.users = s.users.set ui { user with packetQueue := rest } := by
  have hw := waitForStream_free b wf s.chan s.currentTime s.drawCount idx hfree hwf
  have hsucc : (sendPacket pkt s.currentTime
      (calculateTransmissionRate MAX_STREAMS (calculatePowerFactor user)) idx s.chan).success = true := by
    unfold sendPacket
    dsimp only []
    rw [if_neg (by push_neg; exact hend)]
  have hpkt := sendPacket_pkt pkt s.currentTime
    (calculateTransmissionRate MAX_STREAMS (calculatePowerFactor user)) idx s.chan
  have hle : (sendPacket pkt s.currentTime
      (calculateTransmissionRate MAX_STREAMS (calculatePowerFactor user)) idx s.chan).pkt.transmissionEnd
      ≤ (sendPacket pkt s.currentTime
      (calculateTransmissionRate MAX_STREAMS (calculatePowerFactor user)) idx s.chan).pkt.arrivalTimestamp := by
    rw [hpkt]
    dsimp only []
    linarith
  have heq : processUser b wf s ui = some (.ok
      { s with
        chan := (sendPacket pkt s.currentTime (calculateTransmissionRate MAX_STREAMS (calculatePowerFactor user)) idx s.chan).chan,
        currentTime := (sendPacket pkt s.currentTime (calculateTransmissionRate MAX_STREAMS (calculatePowerFactor user)) idx s.chan).timestamp,
        users := s.users.set ui { user with packetQueue := rest } }) := by
    simp only [processUser, hu, hq, hw]
    rw [recordOutcome_noCount _ _ hsucc hle]
  exact ⟨_, heq, rfl, rfl, rfl⟩

end MultiStream

namespace W4

/-! ### Single-channel contention variant (`simulateWiFi`) -/

def BANDWIDTH : ℚ := 20000000
def MODULATION : ℕ := 8
def CODING_RATE : ℚ := 5 / 6
def DATA_RATE : ℚ := BANDWIDTH * MODULATION * CODING_RATE
def PACKET_SIZE : ℕ := 8192
def TRANSMISSION_TIME : ℚ := PACKET_SIZE / DATA_RATE
def MAX_BACKOFF : ℚ := 10 / 1000000

structure W4State where
  latencies : List ℚ
  total_time : ℚ
  chanDraw : ℕ
  backoffDraw : ℕ
deriving Repr, DecidableEq

/-- The inner `while (true)` of `simulateWiFi`: each iteration either finds
the channel free (probability `1/users`, modelled by comparing the next
value of the probe stream `q` to `1/users`) and transmits, or adds the next
backoff value (stream `β`, values in `[0, MAX_BACKOFF]`). -/
def attemptLoop (users : ℕ) (q β : ℕ → ℚ) : ℕ → ℚ → W4State → Option W4State
  | 0, _, _ => none
  | fuel + 1, latency, st =>
    if q st.chanDraw < 1 / (users : ℚ) then
      some { st with latencies := st.latencies ++ [latency + TRANSMISSION_TIME],
                     total_time := st.total_time + TRANSMISSION_TIME,
                     chanDraw := st.chanDraw + 1 }
    else
      attemptLoop users q β fuel (latency + β st.backoffDraw)
        { st with total_time := st.total_time + β st.backoffDraw,
                  chanDraw := st.chanDraw + 1,
                  backoffDraw := st.backoffDraw + 1 }

def packetLoop (users : ℕ) (q β : ℕ → ℚ) (waitFuel : ℕ) : ℕ → W4State → Option W4State
  | 0, st => some st
  | n + 1, st =>
    match attemptLoop users q β waitFuel 0 st with
    | none => none
    | some st' => packetLoop users q β waitFuel n st'

structure W4Result where
  throughput : ℚ
  avg_latency : ℚ
  max_latency : ℚ
deriving Repr, DecidableEq

def simulateWiFi (users packets : ℕ) (q β : ℕ → ℚ) (waitFuel : ℕ) : Option W4Result :=
  (packetLoop users q β waitFuel packets ⟨[], 0, 0, 0⟩).map fun st =>
    { throughput := (packets * PACKET_SIZE : ℚ) / st.total_time
      avg_latency := (st.latencies.foldl (fun a l => a + l) 0) / st.latencies.length
      max_latency := st.latencies.foldl (fun m l => if m < l then l else m) 0 }

/-- In the contention variant, each attempt (a transmission or a backoff
wait) only moves `total_time` forward. -/
theorem attemptLoop_time_mono : ∀ (fuel : ℕ) (users : ℕ) (q β : ℕ → ℚ)
    (latency : ℚ) (st st' : W4State), (∀ k, 0 ≤ β k) →
    attemptLoop users q β fuel latency st = some st' →
    st.total_time ≤ st'.total_time
  | 0, users, q, β, latency, st, st', _, h => by simp [attemptLoop] at h
  | fuel + 1, users, q, β, latency, st, st', hβ, h => by
      have htx : (0 : ℚ) ≤ TRANSMISSION_TIME := by
        unfold TRANSMISSION_TIME DATA_RATE BANDWIDTH MODULATION CODING_RATE PACKET_SIZE
        positivity
      simp only [attemptLoop] at h
      split at h
      · simp only [Option.some.injEq] at h
        subst h
        dsimp only []
        linarith
      · have := attemptLoop_time_mono fuel users q β (latency + β st.backoffDraw) _ st' hβ h
        dsimp only [] at this
        have h0 := hβ st.backoffDraw
        linarith

end W4

unseal Rat.add Rat.sub Rat.mul Rat.inv

/-! ### Shared concrete test states used by the claim witnesses -/

/-- A one-user, one-packet sub-channel simulation state. -/
def scTestState : SubChannel.SimState :=
  { users := [⟨0, [⟨0, 0, 0, 0⟩], 0⟩]
    subChannels := [⟨2, false⟩, ⟨4, false⟩, ⟨10, false⟩]
    currentTime := 0
    totalTime := 0
    totalPackets := 0
    totalLatency := 0
    maxLatency := 0
    totalDroppedPackets := 0
    currentRoundRobinUser := 0
    history := [] }

/-- A one-user, one-packet multi-stream simulation state (all streams free). -/
def msTestState : MultiStream.SimState :=
  { users := [⟨0, 0, [⟨0, 0, 0, 0⟩]⟩]
    chan := [false, false, false, false]
    currentTime := 0
    transmittedPackets := 0
    droppedPackets := 0
    totalLatency := 0
    maxPacketLatency := 0
    drawCount := 0
    history := [] }

/-- The state `processUser` reaches from `msTestState`. -/
def msTestStateAfter : MultiStream.SimState :=
  { users := [⟨0, 0, []⟩]
    chan := [false, false, false, false]
    currentTime := 8192 / 50000000
    transmittedPackets := 1
    droppedPackets := 0
    totalLatency := 8192 / 50000000
    maxPacketLatency := 8192 / 50000000
    drawCount := 0
    history := [⟨0, 0, 8192 / 50000000⟩] }

/-- A multi-stream state whose head packet arrives far in the future, so a
successful transmission has negative latency. -/
def msLateState : MultiStream.SimState :=
  { users := [⟨0, 0, [⟨0, 10, 0, 0⟩]⟩]
    chan := [false, false, false, false]
    currentTime := 0
    transmittedPackets := 0
    droppedPackets := 0
    totalLatency := 0
    maxPacketLatency := 0
    drawCount := 0
    history := [] }

/-- The member state of a multi-stream simulation of one user and one packet
whose channel is entirely busy when `runSimulation` starts. -/
def msBusyInit : MultiStream.SimState :=
  { users := [⟨0, 0, [⟨0, 0, 0, 0⟩]⟩]
    chan := [true, true, true, true]
    currentTime := 0
    transmittedPackets := 0
    droppedPackets := 0
    totalLatency := 0
    maxPacketLatency := 0
    drawCount := 0
    history := [] }

/-- The state in which the run started from `msBusyInit` is aborted: the
clock has just passed the ceiling during the backoff wait and the packet is
still queued. -/
def msAbortedState : MultiStream.SimState :=
  { msBusyInit with currentTime := 5000001 / 1000, drawCount := 5000001 }

/-- The run started on the all-busy channel aborts during the backoff wait
with the partial state `msAbortedState`. -/
theorem msBusyRunAborts :
    MultiStream.runSimulationGen [true, true, true, true] (fun _ => 0) (fun _ => 0) 1 1
      = some (true, msAbortedState) := by
  have h0 : MultiStream.initState [true, true, true, true] (fun _ => 0) 1 1 = msBusyInit := by
    decide
  have hw := MultiStream.waitForStream_allBusy_overflow 5000000 5000002 0 0
    (by norm_num [MultiStream.MAX_SIMULATION_TIME])
    (by norm_num [MultiStream.MAX_SIMULATION_TIME])
    (by norm_num [MultiStream.MAX_SIMULATION_TIME])
    (by norm_num)
  have hw' : MultiStream.waitForStream (fun _ => 0) 5000002 [true, true, true, true] 0 0
      = some (.overflow (5000001 / 1000) 5000001) := by
    rw [hw]
    norm_num
  have hpu := MultiStream.processUser_error (fun _ => 0) 5000002 msBusyInit 0
    ⟨0, 0, [⟨0, 0, 0, 0⟩]⟩ ⟨0, 0, 0, 0⟩ [] (5000001 / 1000) 5000001
    (by decide) (by decide) hw'
  have habort : ({ msBusyInit with currentTime := 5000001 / 1000, drawCount := 5000001 }
      : MultiStream.SimState) = msAbortedState := rfl
  rw [habort] at hpu
  have hrange : List.range msBusyInit.users.length = [0] := by decide
  have hps : MultiStream.passUsers (fun _ => 0) 5000002
      (List.range msBusyInit.users.length) msBusyInit true = some (.error msAbortedState) := by
    rw [hrange]
    exact MultiStream.passUsers_error_cons (fun _ => 0) 5000002 0 [] msBusyInit msAbortedState
      true ⟨0, 0, [⟨0, 0, 0, 0⟩]⟩ (by decide) (by decide) hpu
  have hloop := MultiStream.runLoop_abort (fun _ => 0) 5000002 2 msBusyInit msAbortedState hps
  unfold MultiStream.runSimulationGen
  rw [h0]
  exact hloop

/-! ### The claims -/

set_option maxRecDepth 100000 in
set_option maxHeartbeats 1000000 in
/-- C1 (counterexample): in the multi-stream variant a packet can be counted
as transmitted although its stamped `transmissionStart` precedes its
`arrivalTimestamp` — the scheduler never waits for a packet's arrival.  With
61 users of distance 0 and 2 packets each, user 0's second packet (arrival
0.01 s) is stamped with start 0.00999424 s. -/
theorem claim_C1_counterexample :
    ((MultiStream.runSimulation (fun _ => 0) (fun _ => 0) 61 2).map fun x =>
      x.2.history.any fun tr => decide (tr.startT < tr.arrival)) = some true := by
  decide

/-- C1 (amended): for every transmitted packet, in the sub-channel variant
the stamps satisfy `arrival ≤ start ≤ end`; in the multi-stream variant they
satisfy `start ≤ end` and `arrival < end` (positive latency), but `start`
may precede `arrival`. -/
theorem claim_C1_theorem :
    (∀ (s : SubChannel.SimState) (ci : ℕ) (q : Bool),
      (∀ ch ∈ s.subChannels, 0 < ch.bandwidth) →
      ∀ tr ∈ (SubChannel.subChannelStep s ci q).1.history,
        tr ∈ s.history ∨ (tr.arrival ≤ tr.startT ∧ tr.startT ≤ tr.endT)) ∧
    (∀ (b : ℕ → ℕ) (wf : ℕ) (s : MultiStream.SimState) (ui : ℕ),
      (∀ u ∈ s.users, u.distanceFromAP < 1500) →
      ∀ s', MultiStream.processUser b wf s ui = some (.ok s') →
      ∀ tr ∈ s'.history,
        tr ∈ s.history ∨ (tr.startT ≤ tr.endT ∧ tr.arrival < tr.endT)) :=
  ⟨SubChannel.subChannelStep_history, MultiStream.processUser_history⟩

/-- C1 (witness): the amended invariants evaluated on concrete one-packet
states of both variants. -/
theorem claim_C1_witness :
    ((0 : ℚ) ≤ 0 ∧ (0 : ℚ) ≤ 768 / 1250000) ∧
    ((0 : ℚ) ≤ 8192 / 50000000 ∧ (0 : ℚ) < 8192 / 50000000) := by
  constructor
  · exact (claim_C1_theorem.1 scTestState 0 true (by decide)
      ⟨0, 0, 768 / 1250000⟩ (by decide)).resolve_left (by decide)
  · exact (claim_C1_theorem.2 (fun _ => 0) 1 msTestState 0 (by decide)
      msTestStateAfter (by decide) ⟨0, 0, 8192 / 50000000⟩ (by decide)).resolve_left (by decide)

/-- C2: the sub-channel simulation loop always terminates (the chosen fuel —
one pass per queued packet, plus one — suffices for every population and
load); a state with every queue empty exits the loop on its very next pass;
and the loop never exits early: whenever the run's whole clock budget fits
under the timeout limit (`noTimeoutBound`), no timeout drop can ever fire,
every iteration advances the round-robin pointer, the queue profile seen
from the pointer stays balanced — so the pointer always rests on a longest
queue and a pass can leave the `allQueuesEmpty` flag set only with every
queue empty — and the loop provably exits with all queues empty and the
clock below the ceiling.  All three populations the program runs (1, 10 and
100 users, 10 packets each) lie in this regime, as the last three conjuncts
record. -/
theorem claim_C2_theorem :
    (∀ numUsers packetsPerUser : ℕ,
      (SubChannel.runSimulation numUsers packetsPerUser).isSome = true) ∧
    (∀ s : SubChannel.SimState, SubChannel.allQueuesEmptyState s = true →
      ∀ fuel : ℕ, SubChannel.runLoop (fuel + 1) s = some (SubChannel.runPass s).1) ∧
    (∀ numUsers packetsPerUser : ℕ, 1 ≤ numUsers →
      SubChannel.noTimeoutBound numUsers packetsPerUser ≤ SubChannel.TIMEOUT_LIMIT →
      (SubChannel.runSimulation numUsers packetsPerUser).map (fun s =>
        SubChannel.allQueuesEmptyState s
          && decide (s.currentTime < SubChannel.MAX_SIMULATION_TIME)) = some true) ∧
    ((SubChannel.runSimulation 1 10).map (fun s =>
      SubChannel.allQueuesEmptyState s
        && decide (s.currentTime < SubChannel.MAX_SIMULATION_TIME)) = some true) ∧
    ((SubChannel.runSimulation 10 10).map (fun s =>
      SubChannel.allQueuesEmptyState s
        && decide (s.currentTime < SubChannel.MAX_SIMULATION_TIME)) = some true) ∧
    ((SubChannel.runSimulation 100 10).map (fun s =>
      SubChannel.allQueuesEmptyState s
        && decide (s.currentTime < SubChannel.MAX_SIMULATION_TIME)) = some true) :=
  ⟨SubChannel.runSimulation_isSome,
   fun s h fuel => SubChannel.runLoop_exits_when_empty s fuel h,
   SubChannel.runSimulation_exact,
   SubChannel.runSimulation_exact 1 10 (by decide) (by decide),
   SubChannel.runSimulation_exact 10 10 (by decide) (by decide),
   SubChannel.runSimulation_exact 100 10 (by decide) (by decide)⟩

/-- C2 (witness): the general conjuncts at a concrete small run — a 2-user
3-packet run terminates; an all-empty 2-user state exits at once; and the
2-user 3-packet load fits under the timeout limit, so its run exits with
every queue empty and the clock below the ceiling. -/
theorem claim_C2_witness :
    (SubChannel.runSimulation 2 3).isSome = true ∧
    SubChannel.runLoop 1 (SubChannel.initState 2)
      = some (SubChannel.runPass (SubChannel.initState 2)).1 ∧
    (SubChannel.runSimulation 2 3).map (fun s =>
      SubChannel.allQueuesEmptyState s
        && decide (s.currentTime < SubChannel.MAX_SIMULATION_TIME)) = some true :=
  ⟨claim_C2_theorem.1 2 3,
   claim_C2_theorem.2.1 (SubChannel.initState 2) (by decide) 0,
   claim_C2_theorem.2.2.1 2 3 (by decide) (by decide)⟩

/-- C3: in the multi-stream variant the backoff stream is irrelevant — a
free stream always exists when the acquire loop probes the channel, so the
whole run is the same function for every backoff stream; moreover on the
(always all-free) channel the acquire loop returns at once with the clock
and draw counter untouched. -/
theorem claim_C3_theorem :
    (∀ (r b b' : ℕ → ℕ) (n p : ℕ),
      MultiStream.runSimulation r b n p = MultiStream.runSimulation r b' n p) ∧
    (∀ (b : ℕ → ℕ) (fuel : ℕ) (t : ℚ) (k : ℕ), 1 ≤ fuel →
      MultiStream.waitForStream b fuel MultiStream.allFreeChannel t k
        = some (.acquired 0 t k)) :=
  ⟨MultiStream.runSimulation_backoff_irrelevant, MultiStream.waitForStream_allFree⟩

/-- C3 (witness): two very different backoff streams produce the very same
run, and the acquire loop returns immediately on the free channel. -/
theorem claim_C3_witness :
    MultiStream.runSimulation (fun i => i) (fun k => k + 1) 3 2
      = MultiStream.runSimulation (fun i => i) (fun _ => 9) 3 2 ∧
    MultiStream.waitForStream (fun k => k + 1) 1 MultiStream.allFreeChannel 7 0
      = some (.acquired 0 7 0) :=
  ⟨claim_C3_theorem.1 (fun i => i) (fun k => k + 1) (fun _ => 9) 3 2,
   claim_C3_theorem.2 (fun k => k + 1) 1 7 0 (by omega)⟩

/-- C4 (counterexample): the reported throughput is not the raw
`transmittedCount × packetSizeBits / finalClock`: for the one-user one-packet
sub-channel run the displayed value (in Mbps) differs from the raw value
scaled to Mbps — an additive constant (and in general a division by the
population size) is applied. -/
theorem claim_C4_counterexample :
    ((SubChannel.runSimulation 1 1).map fun s =>
      decide ((SubChannel.displayResults s 1).map SubChannel.Report.throughputMbps
        = some ((s.totalPackets * SubChannel.PACKET_SIZE_BYTES * 8 : ℚ) / s.totalTime / 1000000)))
      = some false := by
  decide

/-- C4 (amended): the internal throughput value is the raw
`transmittedCount × packetSizeBits / finalClock`, but the reported Mbps
figure divides it by the population size and adds a population-dependent
constant: `+1` in the sub-channel variant, and `+1`/`+3`/`+2` for 1/10/other
users in the multi-stream variant. -/
theorem claim_C4_theorem :
    (∀ (s : SubChannel.SimState) (n : ℕ), s.totalPackets ≠ 0 →
      (SubChannel.displayResults s n).map SubChannel.Report.throughputMbps
        = some ((s.totalPackets * SubChannel.PACKET_SIZE_BYTES * 8 : ℚ) / s.totalTime
            / 1000000 / n + 1)) ∧
    (∀ (s : MultiStream.SimState) (n : ℕ), s.transmittedPackets ≠ 0 →
      (MultiStream.displayResults s n).map MultiStream.Report.throughputMbps
        = some (if n = 1 then
              (s.transmittedPackets * MultiStream.PACKET_SIZE_BYTES * 8 : ℚ) / s.currentTime
                / 1000000 / n + 1
            else if n = 10 then
              (s.transmittedPackets * MultiStream.PACKET_SIZE_BYTES * 8 : ℚ) / s.currentTime
                / 1000000 / n + 3
            else
              (s.transmittedPackets * MultiStream.PACKET_SIZE_BYTES * 8 : ℚ) / s.currentTime
                / 1000000 / n + 2)) := by
  constructor
  · intro s n h
    unfold SubChannel.displayResults
    rw [if_neg h]
    rfl
  · intro s n h
    unfold MultiStream.displayResults
    rw [if_neg h]
    rfl

/-- C4 (witness): the amended report formulas evaluated on concrete states. -/
theorem claim_C4_witness :
    ((SubChannel.displayResults { scTestState with totalPackets := 1, totalTime := 1 } 5).map
      SubChannel.Report.throughputMbps
      = some ((1 * SubChannel.PACKET_SIZE_BYTES * 8 : ℚ) / 1 / 1000000 / 5 + 1)) ∧
    ((MultiStream.displayResults { msTestState with transmittedPackets := 1, currentTime := 1 } 10).map
      MultiStream.Report.throughputMbps
      = some ((1 * MultiStream.PACKET_SIZE_BYTES * 8 : ℚ) / 1 / 1000000 / 10 + 3)) := by
  constructor
  · exact (claim_C4_theorem.1 { scTestState with totalPackets := 1, totalTime := 1 } 5
      (by decide)).trans (by decide)
  · exact (claim_C4_theorem.2 { msTestState with transmittedPackets := 1, currentTime := 1 } 10
      (by decide)).trans (by decide)

/-- C5: a simulation-ceiling overflow during the backoff wait is caught
inside the run: the run returns its partial state (flagged aborted), the
driver still hands that state to `displayResults`, and every other
configured population size still gets its own run and report entry. -/
theorem claim_C5_theorem (r b : ℕ → ℕ) (p i n : ℕ) (c0 : List Bool)
    (cfgs : List (ℕ × List Bool)) (st : MultiStream.SimState)
    (hcfg : cfgs[i]? = some (n, c0))
    (habort : MultiStream.runSimulationGen c0 r b n p = some (true, st)) :
    (MultiStream.mainDriver r b cfgs p).length = cfgs.length ∧
    (MultiStream.mainDriver r b cfgs p)[i]?
      = some (some (MultiStream.displayResults st n)) ∧
    (∀ (j m : ℕ) (c1 : List Bool), cfgs[j]? = some (m, c1) →
      (MultiStream.mainDriver r b cfgs p)[j]?
        = some ((MultiStream.runSimulationGen c1 r b m p).map fun x =>
            MultiStream.displayResults x.2 m)) := by
  refine ⟨List.length_map _ _, ?_, ?_⟩
  · rw [MultiStream.mainDriver, List.getElem?_map, hcfg]
    dsimp only [Option.map]
    rw [habort]
  · intro j m c1 hj
    rw [MultiStream.mainDriver, List.getElem?_map, hj]
    rfl

/-- C5 (witness): a two-population driver whose first run (all streams busy
at start) aborts on ceiling overflow; the driver still produces both
entries and the aborted run's partial state is the one displayed. -/
theorem claim_C5_witness :
    (MultiStream.mainDriver (fun _ => 0) (fun _ => 0)
      [(1, [true, true, true, true]), (10, MultiStream.allFreeChannel)] 1).length = 2 ∧
    (MultiStream.mainDriver (fun _ => 0) (fun _ => 0)
      [(1, [true, true, true, true]), (10, MultiStream.allFreeChannel)] 1)[0]?
      = some (some (MultiStream.displayResults msAbortedState 1)) := by
  have h := claim_C5_theorem (fun _ => 0) (fun _ => 0) 1 0 1 [true, true, true, true]
    [(1, [true, true, true, true]), (10, MultiStream.allFreeChannel)] msAbortedState
    rfl msBusyRunAborts
  exact ⟨h.1, h.2.1⟩

/-- C6: packet generation in the sub-channel variant drops every packet that
would be added while the queue already holds `MAX_QUEUE_SIZE` packets,
incrementing the user's drop counter instead, so the queue never exceeds the
configured maximum. -/
theorem claim_C6_theorem (u : SubChannel.User) (count : ℕ) (base : ℚ)
    (h : u.packetQueue.length ≤ SubChannel.MAX_QUEUE_SIZE) :
    (SubChannel.generatePackets u count base).packetQueue.length
        = min (u.packetQueue.length + count) SubChannel.MAX_QUEUE_SIZE ∧
    (SubChannel.generatePackets u count base).droppedPackets
        = u.droppedPackets + (u.packetQueue.length + count - SubChannel.MAX_QUEUE_SIZE) ∧
    (SubChannel.generatePackets u count base).packetQueue.length
        ≤ SubChannel.MAX_QUEUE_SIZE := by
  have hs := SubChannel.generatePackets_spec u count base h
  exact ⟨hs.1, hs.2, hs.1 ▸ min_le_right _ _⟩

/-- C6 (witness): generating 60 packets into an empty queue keeps 50 of them
and counts 10 drops. -/
theorem claim_C6_witness :
    (SubChannel.generatePackets ⟨0, [], 0⟩ 60 0).packetQueue.length = 50 ∧
    (SubChannel.generatePackets ⟨0, [], 0⟩ 60 0).droppedPackets = 10 ∧
    (SubChannel.generatePackets ⟨0, [], 0⟩ 60 0).packetQueue.length
      ≤ SubChannel.MAX_QUEUE_SIZE := by
  have h := claim_C6_theorem ⟨0, [], 0⟩ 60 0 (by decide)
  exact ⟨h.1.trans (by decide), h.2.1.trans (by decide), h.2.2⟩

/-- C7 (counterexample): the power-attenuation factor is not clamped: for a
distance of 2000 m (beyond `MAX_DISTANCE`) the computed factor falls below
`MIN_POWER`. -/
theorem claim_C7_counterexample :
    MultiStream.calculatePowerFactor ⟨0, 2000, []⟩ < MultiStream.MIN_POWER := by
  decide

/-- C7 (amended): the factor equals
`maxPower − (distance/maxDistance)·(maxPower−minPower)` with no clamping
applied; for distances in `[0, maxDistance]` — which every constructed user
has, since distances are drawn as `rand() % 1001` — it lies within
`[minPower, maxPower]`. -/
theorem claim_C7_theorem (u : MultiStream.User) :
    MultiStream.calculatePowerFactor u
      = MultiStream.MAX_POWER - u.distanceFromAP / MultiStream.MAX_DISTANCE
          * (MultiStream.MAX_POWER - MultiStream.MIN_POWER) ∧
    (0 ≤ u.distanceFromAP → u.distanceFromAP ≤ MultiStream.MAX_DISTANCE →
      MultiStream.MIN_POWER ≤ MultiStream.calculatePowerFactor u ∧
      MultiStream.calculatePowerFactor u ≤ MultiStream.MAX_POWER) ∧
    (∀ (r : ℕ → ℕ) (n : ℕ), ∀ u' ∈ MultiStream.initUsers r n,
      0 ≤ u'.distanceFromAP ∧ u'.distanceFromAP ≤ MultiStream.MAX_DISTANCE) := by
  refine ⟨rfl, ?_, ?_⟩
  · intro h0 h1
    rw [MultiStream.calculatePowerFactor_eq]
    unfold MultiStream.MIN_POWER MultiStream.MAX_POWER
    unfold MultiStream.MAX_DISTANCE at h1
    constructor
    · rw [div_le_div_iff₀ (by norm_num) (by norm_num)] at *
      nlinarith
    · nlinarith [div_nonneg h0 (by norm_num : (0:ℚ) ≤ 1000)]
  · intro r n u' hu'
    unfold MultiStream.initUsers at hu'
    obtain ⟨i, _, hi⟩ := List.mem_map.mp hu'
    subst hi
    refine ⟨by positivity, ?_⟩
    unfold MultiStream.MAX_DISTANCE
    have : r i % 1001 < 1001 := Nat.mod_lt _ (by omega)
    calc ((r i % 1001 : ℕ) : ℚ) ≤ 1000 := by
          exact_mod_cast Nat.lt_succ_iff.mp this
      _ ≤ 1000 := le_refl _

/-- C7 (witness): the bounds evaluated at distance 500. -/
theorem claim_C7_witness :
    MultiStream.MIN_POWER ≤ MultiStream.calculatePowerFactor ⟨0, 500, []⟩ ∧
    MultiStream.calculatePowerFactor ⟨0, 500, []⟩ ≤ MultiStream.MAX_POWER :=
  (claim_C7_theorem ⟨0, 500, []⟩).2.1 (by decide) (by decide)

/-- C8: with the randomness made explicit (distance stream, backoff stream,
channel-probe stream), a run is a pure function of its configuration and
streams: two runs with the same streams produce identical transmitted and
dropped counts and identical latency statistics, in both the multi-stream
and the contention variant. -/
theorem claim_C8_theorem (r b r' b' : ℕ → ℕ) (n p : ℕ) (c0 : List Bool)
    (q β q' β' : ℕ → ℚ) (users packets wf : ℕ)
    (hr : r = r') (hb : b = b') (hq : q = q') (hβ : β = β') :
    ((MultiStream.runSimulationGen c0 r b n p).map fun x =>
        (x.2.transmittedPackets, x.2.droppedPackets, x.2.totalLatency, x.2.maxPacketLatency))
      = ((MultiStream.runSimulationGen c0 r' b' n p).map fun x =>
        (x.2.transmittedPackets, x.2.droppedPackets, x.2.totalLatency, x.2.maxPacketLatency)) ∧
    W4.simulateWiFi users packets q β wf = W4.simulateWiFi users packets q' β' wf := by
  subst hr
  subst hb
  subst hq
  subst hβ
  exact ⟨rfl, rfl⟩

/-- C8 (witness): the two-run equality instantiated at concrete streams. -/
theorem claim_C8_witness :
    ((MultiStream.runSimulationGen MultiStream.allFreeChannel (fun _ => 0) (fun k => k) 1 1).map
        fun x => (x.2.transmittedPackets, x.2.droppedPackets, x.2.totalLatency, x.2.maxPacketLatency))
      = ((MultiStream.runSimulationGen MultiStream.allFreeChannel (fun _ => 0) (fun k => k) 1 1).map
        fun x => (x.2.transmittedPackets, x.2.droppedPackets, x.2.totalLatency, x.2.maxPacketLatency)) ∧
    W4.simulateWiFi 1 2 (fun _ => 0) (fun _ => 0) 3
      = W4.simulateWiFi 1 2 (fun _ => 0) (fun _ => 0) 3 :=
  claim_C8_theorem (fun _ => 0) (fun k => k) (fun _ => 0) (fun k => k) 1 1
    MultiStream.allFreeChannel (fun _ => 0) (fun _ => 0) (fun _ => 0) (fun _ => 0)
    1 2 3 rfl rfl rfl rfl

/-- C9: the simulated clock is monotone: no sub-channel iteration, no
multi-stream user-processing step (including backoff waits, aborts,
transmissions and drops) and no contention-variant attempt ever moves the
clock backwards. -/
theorem claim_C9_theorem :
    (∀ (s : SubChannel.SimState) (ci : ℕ) (q : Bool),
      (∀ ch ∈ s.subChannels, 0 < ch.bandwidth) →
      s.currentTime ≤ (SubChannel.subChannelStep s ci q).1.currentTime) ∧
    (∀ (b : ℕ → ℕ) (wf : ℕ) (s : MultiStream.SimState) (ui : ℕ),
      (∀ u ∈ s.users, u.distanceFromAP < 1500) →
      ∀ x, MultiStream.processUser b wf s ui = some x →
        s.currentTime ≤ (MultiStream.exceptState x).currentTime) ∧
    (∀ (fuel users : ℕ) (q β : ℕ → ℚ) (latency : ℚ) (st st' : W4.W4State),
      (∀ k, 0 ≤ β k) → W4.attemptLoop users q β fuel latency st = some st' →
      st.total_time ≤ st'.total_time) :=
  ⟨SubChannel.subChannelStep_clock_mono, MultiStream.processUser_clock_mono,
   fun fuel users q β latency st st' hβ h =>
     W4.attemptLoop_time_mono fuel users q β latency st st' hβ h⟩

/-- C9 (witness): the clock-monotonicity facts evaluated at concrete states
of the three variants. -/
theorem claim_C9_witness :
    scTestState.currentTime ≤ (SubChannel.subChannelStep scTestState 0 true).1.currentTime ∧
    msTestState.currentTime ≤ (MultiStream.exceptState (.ok msTestStateAfter)).currentTime ∧
    (⟨[], 0, 0, 0⟩ : W4.W4State).total_time
      ≤ (⟨[768 / 12500000], 768 / 12500000, 1, 0⟩ : W4.W4State).total_time := by
  refine ⟨?_, ?_, ?_⟩
  · exact claim_C9_theorem.1 scTestState 0 true (by decide)
  · exact claim_C9_theorem.2.1 (fun _ => 0) 1 msTestState 0 (by decide)
      (.ok msTestStateAfter) (by decide)
  · exact claim_C9_theorem.2.2 1 1 (fun _ => 0) (fun _ => 0) 0 ⟨[], 0, 0, 0⟩
      ⟨[768 / 12500000], 768 / 12500000, 1, 0⟩ (fun k => le_refl 0) (by decide)

/-- C10: in the multi-stream variant, a successfully transmitted packet
whose latency is not strictly positive is removed from its queue without
incrementing the transmitted or the dropped counter; consequently a run can
finish with `transmitted + dropped` strictly below the number of generated
packets (one user, two packets: 1 transmitted, 0 dropped). -/
theorem claim_C10_theorem :
    (∀ (b : ℕ → ℕ) (wf : ℕ) (s : MultiStream.SimState) (ui idx : ℕ)
      (user : MultiStream.User) (pkt : MultiStream.Packet) (rest : List MultiStream.Packet),
      s.users[ui]? = some user → user.packetQueue = pkt :: rest →
      MultiStream.findAvailableStream s.chan = some idx → 1 ≤ wf →
      s.currentTime + (MultiStream.PACKET_SIZE_BYTES * 8 : ℚ) /
          MultiStream.calculateTransmissionRate MultiStream.MAX_STREAMS
            (MultiStream.calculatePowerFactor user)
          ≤ MultiStream.MAX_SIMULATION_TIME →
      s.currentTime + (MultiStream.PACKET_SIZE_BYTES * 8 : ℚ) /
          MultiStream.calculateTransmissionRate MultiStream.MAX_STREAMS
            (MultiStream.calculatePowerFactor user)
          ≤ pkt.arrivalTimestamp →
      ((MultiStream.processUser b wf s ui).map fun x =>
          ((MultiStream.exceptState x).transmittedPackets,
           (MultiStream.exceptState x).droppedPackets,
           (MultiStream.exceptState x).users))
        = some (s.transmittedPackets, s.droppedPackets,
            s.users.set ui { user with packetQueue := rest })) ∧
    ((MultiStream.runSimulation (fun _ => 0) (fun _ => 0) 1 2).map fun x =>
      (x.2.transmittedPackets, x.2.droppedPackets)) = some (1, 0) := by
  constructor
  · intro b wf s ui idx user pkt rest hu hq hfree hwf hend hlat
    obtain ⟨s', heq, h1, h2, h3⟩ :=
      MultiStream.processUser_zeroLatency b wf s ui idx user pkt rest hu hq hfree hwf hend hlat
    rw [heq]
    dsimp only [Option.map, MultiStream.exceptState]
    rw [h1, h2, h3]
  · decide

/-- C10 (witness): the step applied to a state whose head packet arrives at
10 s while the clock is at 0: the packet is popped, both counters stay 0. -/
theorem claim_C10_witness :
    ((MultiStream.processUser (fun _ => 0) 1 msLateState 0).map fun x =>
        ((MultiStream.exceptState x).transmittedPackets,
         (MultiStream.exceptState x).droppedPackets,
         (MultiStream.exceptState x).users))
      = some (0, 0, [⟨0, 0, []⟩]) := by
  have h := claim_C10_theorem.1 (fun _ => 0) 1 msLateState 0 0
    ⟨0, 0, [⟨0, 10, 0, 0⟩]⟩ ⟨0, 10, 0, 0⟩ []
    (by decide) (by decide) (by decide) (by omega) (by decide) (by decide)
  exact h.trans (by decide)

